import Mathlib

/-!
# amun beam search and tensor runtime: a verification development

Shallow embedding of

* `src/amun/gpu/mblas/tensor.h`   : the reduction kernel `gSum` and its host wrapper `Sum`;
* `src/fpga/matrix_functions.cpp` : `CopyRows` and `Assemble` (row gather);
* `src/amun/common/search.cpp`    : `Search::Translate`, `Search::CalcBeam`,
  `Search::FilterTargetVocab`, `Search::Encode`, `Search::NewStates`,
  `Search::CleanAfterTranslation`.

Machine integers are natural numbers with an explicit reduction modulo `2^32`
(`unsigned`, `uint`) or `2^64` (`size_t`) at every place where the source can wrap.
-/

namespace amunmt

/-! ## Part 1. `gpu/mblas/tensor.h` -/

namespace GPU
namespace mblas

/-- Body of the loop `for (unsigned i = 0; i < count; ++i) ret += data[i];` of `gSum`.
The first argument counts the iterations still to run (`count - i`); `i` is the loop
variable and `ret` the accumulator. The device pointer `data` is a map from offset to
element. `i` never exceeds `count`, an `unsigned`, so the increment cannot wrap. -/
def gSumLoop {T : Type} [Add T] (data : Nat → T) : Nat → Nat → T → T
  | 0, _, ret => ret
  | n + 1, i, ret => gSumLoop data n (i + 1) (ret + data i)

/-- Kernel `gSum(data, count, ret)`: `ret = 0;` followed by the loop. The result is the
value left in `ret`. -/
def gSum {T : Type} [Zero T] [Add T] (data : Nat → T) (count : Nat) : T :=
  gSumLoop data count 0 0

/-- Host wrapper `Sum(data, count)`: launches `gSum<<<1, 1>>>` (one block, one thread) on
the stream, copies `*d_ret` back and returns it. -/
def Sum {T : Type} [Zero T] [Add T] (data : Nat → T) (count : Nat) : T :=
  gSum data count

end mblas
end GPU

/-! ## Part 2. `fpga/matrix_functions.cpp` -/

namespace FPGA
namespace mblas

/-- Modelled from the spec: the class `Matrix` of `fpga/matrix.h`, which is not among the
sources. A matrix is a contiguous row-major device buffer `data` together with its
dimensions; `rows` is `dim(0)` and `cols` is `dim(1)`. -/
structure Matrix (α : Type) where
  rows : Nat
  cols : Nat
  data : List α
deriving DecidableEq, Repr

/-- Modelled from the spec: `Matrix::dim(i)` of the absent `fpga/matrix.h`; dimensions
beyond the second are 1. -/
def Matrix.dim {α : Type} (m : Matrix α) (i : Nat) : Nat :=
  if i = 0 then m.rows else if i = 1 then m.cols else 1

/-- Modelled from the spec: `Matrix::Resize(rows, cols)` of the absent `fpga/matrix.h`
("destination is resized to (len(rowIndices), source.columns, ...)"). The buffer gets
`rows * cols` elements; the old prefix is kept and new cells hold an unspecified value,
here `default`. -/
def Matrix.Resize {α : Type} [Inhabited α] (m : Matrix α) (rows cols : Nat) : Matrix α :=
  { rows := rows
    cols := cols
    data := m.data.take (rows * cols)
              ++ List.replicate (rows * cols - m.data.length) default }

/-- Modelled from the spec: the OpenCL kernel `gCopyRows` of `kernels/matrix_functions.cl`,
which is not among the sources ("for each output row i, copies row rowIndices[i] of source
into row i of destination"). Arguments are those set by `CopyRows`: the output buffer, the
input buffer, `cols`, the device array of row indices and `numPairs`. The launch over
the whole work-item range is taken as one: the result is the pair of buffers
(output, input) after the kernel has run; the input is only read. -/
def gCopyRows {α : Type} [Inhabited α] (out inp : List α) (cols : Nat)
    (targetRowIdx : List Nat) (numPairs : Nat) : List α × List α :=
  ((List.range numPairs).foldl
      (fun o j =>
        (List.range cols).foldl
          (fun o i => o.set (j * cols + i) (inp.getD (targetRowIdx.getD j 0 * cols + i) default))
          o)
      out,
    inp)

/-- `CopyRows(context, device, Out, In, dev, numPairs)`: `cols = In.dim(1)`, the five kernel
arguments are set and `gCopyRows` is enqueued and awaited. Arguments 2 and 4 are `size_t`
variables passed with `sizeof(unsigned int)`, so the kernel receives the low 32 bits of
`cols` and of `numPairs` (little-endian host).
The scratch buffer `output` and the value `results` read back from it play no part in the
result. Returns the matrices (Out, In) as they are after the call; `Out` and `In` are
distinct objects. -/
def CopyRows {α : Type} [Inhabited α] (Out In : Matrix α) (dev : List Nat) (numPairs : Nat) :
    Matrix α × Matrix α :=
  let cols := In.dim 1
  let r := gCopyRows Out.data In.data (cols % 4294967296) dev (numPairs % 4294967296)
  ({ Out with data := r.1 }, { In with data := r.2 })

/-- `Assemble(context, device, Out, In, indeces)`:
`Out.Resize(indeces.size(), In.dim(1)); CopyRows(context, device, Out, In, indeces.data(),
indeces.size());`. Returns the matrices (Out, In) as they are after the call. -/
def Assemble {α : Type} [Inhabited α] (Out In : Matrix α) (indeces : List Nat) :
    Matrix α × Matrix α :=
  CopyRows (Out.Resize indeces.length (In.dim 1)) In indeces indeces.length

/-- Row `i` of a matrix: the `cols` consecutive cells starting at offset `i * cols`. -/
def Matrix.row {α : Type} (m : Matrix α) (i : Nat) : List α :=
  (m.data.drop (i * m.cols)).take m.cols

/-- Class invariant of `Matrix`: the buffer holds exactly `rows * cols` cells. -/
def Matrix.WellFormed {α : Type} (m : Matrix α) : Prop :=
  m.data.length = m.rows * m.cols

instance {α : Type} (m : Matrix α) : Decidable m.WellFormed :=
  inferInstanceAs (Decidable (m.data.length = m.rows * m.cols))

end mblas
end FPGA

/-! ## Part 3. `common/search.cpp` -/

/-- A vocabulary id (`Word`). -/
abbrev Word := Nat

/-- A sequence of vocabulary ids (`Words`). -/
abbrev Words := List Word

/-- Modelled from the spec: `Hypothesis` of `common/hypothesis.h`, which is not among the
sources: a token id and a back-reference to the parent (here the parent's position in the
previous beam). `Search` reads only the token, through `GetWord()`. -/
structure Hypothesis where
  word : Word
  prevIndex : Nat
deriving DecidableEq, Repr

/-- `h->GetWord()`. -/
def Hypothesis.GetWord (h : Hypothesis) : Word := h.word

/-- `Beam`: an ordered sequence of hypotheses. -/
abbrev Beam := List Hypothesis

/-- `Beams`: one beam per batch row. -/
abbrev Beams := List Beam

/-- Modelled from the spec: `Sentence` of `common/sentence.h`, which is not among the
sources: an ordered sequence of source token ids. -/
structure Sentence where
  words : Words
deriving DecidableEq, Repr

/-- `sentence.GetWords()`. -/
def Sentence.GetWords (s : Sentence) : Words := s.words

/-- Modelled from the spec: `Sentences` of `common/sentences.h`, which is not among the
sources: an ordered batch of sentences that exposes batch size and max source length. -/
structure Sentences where
  coll : List Sentence
deriving DecidableEq, Repr

/-- `sentences.size()`. -/
def Sentences.size (s : Sentences) : Nat := s.coll.length

/-- Modelled from the spec: `Sentences::GetMaxLength()` of the absent `common/sentences.h`,
the maximum source length across the batch (0 for an empty batch). -/
def Sentences.GetMaxLength (s : Sentences) : Nat :=
  s.coll.foldl (fun m x => max m x.words.length) 0

/-- The external collaborators of one `Search` object, as far as their answers reach
`Search`, taken as parameters. `Scorer::Decode`, `Scorer::AssembleBeamState`,
`Histories::Add` and the other `void` calls return nothing to `Search` and appear only in
the call log.

* `EOS_ID` is the end-of-sequence word id, a constant declared outside the sources.
* `GetVocabSize` is the answer of `scorers_[0]->GetVocabSize()`.
* `GetFilteredVocab srcWords vocabSize` is the answer of `filter_->GetFilteredVocab`.
* `GetFirstHyps sentences` is the beam `histories->GetFirstHyps()` returns for the
  `Histories` built from `sentences`.
* `BestHyps decoderStep prevHyps filterIndices beamSizes batchId` is the content that
  `bestHyps_->CalcBeam(prevHyps, scorers_[0], filterIndices_, beams, beamSizes)` leaves in
  `beams[batchId]` at the call made in decode step `decoderStep`. The dependence on
  `decoderStep` stands for whatever hidden state (scorer probabilities, internal buffers)
  the call reads, so every sequence of answers is covered. `beams` was sized by `Search`
  to `batchSize` rows and the collaborator fills those rows; `beams` is its only output
  (`prevHyps` and `beamSizes` are left as passed). -/
structure Collaborators where
  EOS_ID : Word
  GetVocabSize : Nat
  GetFilteredVocab : Words → Nat → Words
  GetFirstHyps : Sentences → Beam
  BestHyps : Nat → Beam → Words → List Nat → Nat → Beam

/-- One call made by `Search` on a collaborator; scorers are named by their position in
`scorers_`. -/
inductive Call where
  | GetVocabSize (scorer : Nat)
  | GetFilteredVocab (srcWords : Words) (vocabSize : Nat)
  | Filter (scorer : Nat) (filterIndices : Words)
  | Encode (scorer : Nat)
  | NewState (scorer : Nat)
  | BeginSentenceState (scorer : Nat) (batchSize : Nat)
  | NewHistories (normalizeScore : Bool)
  | GetFirstHyps
  | Decode (scorer : Nat) (beamSizes : List Nat)
  | BestHyps (prevHyps : Beam) (filterIndices : Words) (beamSizes : List Nat)
  | HistoriesAdd (beams : Beams)
  | AssembleBeamState (scorer : Nat) (survivors : Beam)
  | CleanUpAfterSentence (scorer : Nat)
deriving DecidableEq, Repr

/-- The members of a `Search` object that `Translate` uses: the ensemble size
`scorers_.size()`, whether `filter_` is set, `maxBeamSize_` (a `size_t`),
`normalizeScore_` and `filterIndices_`. `FilterTargetVocab` and `CalcBeam` index
`scorers_[0]`, so a `Search` that runs has `numScorers ≥ 1`. -/
structure Search where
  numScorers : Nat
  filter_ : Bool
  maxBeamSize_ : Nat
  normalizeScore_ : Bool
  filterIndices_ : Words
deriving DecidableEq, Repr

/-- What one pass through the body of the decode loop saw and did (instrumentation, not
program state): `prevHyps` and `beamSizes` on entry, `beamSizes` as passed to `BestHyps`
(after the reset of step 0), the `beams` that came back, and the survivors, `beamSizes`
and return value at the end of `CalcBeam`. -/
structure StepRecord where
  prevHyps : Beam
  beamSizesIn : List Nat
  beamSizesSel : List Nat
  beams : Beams
  survivors : Beam
  beamSizesOut : List Nat
  hasSurvivors : Bool
deriving DecidableEq, Repr

/-- The local variables of `Translate` that the decode loop updates (`beamSizes`,
`prevHyps`, `decoderStep`), with two logs kept for the statements below: `calls`, the
collaborator calls in program order, and `steps`, one record per executed loop body. -/
structure Machine where
  beamSizes : List Nat
  prevHyps : Beam
  decoderStep : Nat
  calls : List Call
  steps : List StepRecord
deriving DecidableEq, Repr

/-- `srcWords.insert(srcWord)` on a `std::set<Word>`, kept as a strictly increasing list. -/
def setInsert (w : Word) : Words → Words
  | [] => [w]
  | x :: xs => if w < x then w :: x :: xs else if w = x then x :: xs else x :: setInsert w xs

/-- The two loops of `FilterTargetVocab` that fill `srcWords`. -/
def collectSrcWords (sentences : Sentences) : Words :=
  sentences.coll.foldl (fun srcWords sentence =>
    sentence.GetWords.foldl (fun acc srcWord => setInsert srcWord acc) srcWords) []

/-- `Search::FilterTargetVocab(sentences)`: returns the object with `filterIndices_`
assigned, and the calls made. -/
def Search.FilterTargetVocab (srch : Search) (C : Collaborators) (sentences : Sentences) :
    Search × List Call :=
  let vocabSize := C.GetVocabSize
  let srcWords := collectSrcWords sentences
  let filterIndices := C.GetFilteredVocab srcWords vocabSize
  ({ srch with filterIndices_ := filterIndices },
    [Call.GetVocabSize 0, Call.GetFilteredVocab srcWords vocabSize]
      ++ (List.range srch.numScorers).map (fun i => Call.Filter i filterIndices))

/-- Calls made by `Search::Encode(sentences)`. -/
def Search.Encode (srch : Search) (sentences : Sentences) : List Call :=
  (List.range srch.numScorers).flatMap (fun i =>
    [Call.Encode i, Call.NewState i, Call.BeginSentenceState i sentences.size])

/-- Calls made by `Search::NewStates()`. -/
def Search.NewStates (srch : Search) : List Call :=
  (List.range srch.numScorers).map Call.NewState

/-- Calls made by `Search::CleanAfterTranslation()`. -/
def Search.CleanAfterTranslation (srch : Search) : List Call :=
  (List.range srch.numScorers).map Call.CleanUpAfterSentence

/-- The decrement `--x` of a `uint`: it wraps modulo `2^32`. -/
def decUInt (x : Nat) : Nat := (x + 4294967295) % 4294967296

/-- `--beamSizes[batchId]` on a `std::vector<uint>`. -/
def decBeamSize (beamSizes : List Nat) (batchId : Nat) : List Nat :=
  beamSizes.set batchId (decUInt (beamSizes.getD batchId 0))

/-- Inner loop of `CalcBeam`, `for (auto& h : beams[batchId])`, on the pair
(survivors, beamSizes). -/
def rowLoop (EOS_ID : Word) (batchId : Nat) (beam : Beam) (acc : Beam × List Nat) :
    Beam × List Nat :=
  beam.foldl (fun a h =>
    if h.GetWord ≠ EOS_ID then (a.1 ++ [h], a.2) else (a.1, decBeamSize a.2 batchId)) acc

/-- Outer loop of `CalcBeam`, `for (size_t batchId = 0; batchId < batchSize; ++batchId)`,
started with an empty `survivors`. -/
def survivorLoop (EOS_ID : Word) (beams : Beams) (batchSize : Nat) (beamSizes : List Nat) :
    Beam × List Nat :=
  (List.range batchSize).foldl
    (fun a batchId => rowLoop EOS_ID batchId (beams.getD batchId []) a) ([], beamSizes)

/-- `Beams beams(batchSize); bestHyps_->CalcBeam(prevHyps, scorers_[0], filterIndices_,
beams, beamSizes);`: the `batchSize` rows of `beams` as the collaborator leaves them. -/
def Search.callBestHyps (srch : Search) (C : Collaborators) (m : Machine) : Beams :=
  (List.range m.beamSizes.length).map
    (C.BestHyps m.decoderStep m.prevHyps srch.filterIndices_ m.beamSizes)

/-- `Search::CalcBeam(histories, beamSizes, prevHyps, state, nextState)` as called from
`Translate` with `*states[0]` and `*nextStates[0]`. `selIn` is the value of `beamSizes`
on entry of the loop body, kept for the step record. -/
def Search.CalcBeam (srch : Search) (C : Collaborators) (selIn : List Nat) (m : Machine) :
    Bool × Machine :=
  let batchSize := m.beamSizes.length
  let beams : Beams := srch.callBestHyps C m
  let r := survivorLoop C.EOS_ID beams batchSize m.beamSizes
  let survivors := r.1
  let beamSizes := r.2
  let calls := m.calls ++
    [Call.BestHyps m.prevHyps srch.filterIndices_ m.beamSizes, Call.HistoriesAdd beams]
  if survivors.length = 0 then
    (false,
      { m with
        beamSizes := beamSizes
        calls := calls
        steps := m.steps ++
          [⟨m.prevHyps, selIn, m.beamSizes, beams, survivors, beamSizes, false⟩] })
  else
    (true,
      { m with
        beamSizes := beamSizes
        prevHyps := survivors
        calls := calls ++ [Call.AssembleBeamState 0 survivors]
        steps := m.steps ++
          [⟨m.prevHyps, selIn, m.beamSizes, beams, survivors, beamSizes, true⟩] })

/-- Body of the decode loop of `Translate` up to and including the call of `CalcBeam`:
every scorer decodes, at step 0 every entry of `beamSizes` is overwritten with
`maxBeamSize_` (a `size_t` stored into a `uint`, hence reduced modulo `2^32`), then
`CalcBeam` runs. -/
def Search.loopBody (srch : Search) (C : Collaborators) (m : Machine) : Bool × Machine :=
  let m1 : Machine :=
    { m with
      calls := m.calls ++ List.map (fun i => Call.Decode i m.beamSizes)
        (List.range srch.numScorers) }
  let m2 : Machine :=
    if m1.decoderStep = 0 then
      { m1 with beamSizes := m1.beamSizes.map (fun _ => srch.maxBeamSize_ % 4294967296) }
    else m1
  srch.CalcBeam C m.beamSizes m2

/-- The loop `for (size_t decoderStep = 0; decoderStep < bound; ++decoderStep)` of
`Translate`; the first argument is the number of iterations the bound still allows
(`bound - decoderStep`). A body whose `CalcBeam` returns `false` leaves by `break`. -/
def Search.decodeLoop (srch : Search) (C : Collaborators) : Nat → Machine → Machine
  | 0, m => m
  | n + 1, m =>
    let r := srch.loopBody C m
    if r.1 then srch.decodeLoop C n { r.2 with decoderStep := r.2.decoderStep + 1 }
    else r.2

/-- `Search::Translate(sentences)`. Returns the object (its `filterIndices_` may have been
assigned) and the final `Machine`, whose `calls` is the whole call log of the invocation.
The loop bound `3 * sentences.GetMaxLength()` is a `size_t` product. -/
def Search.Translate (srch : Search) (C : Collaborators) (sentences : Sentences) :
    Search × Machine :=
  let f : Search × List Call :=
    if srch.filter_ then srch.FilterTargetVocab C sentences else (srch, [])
  let srch1 := f.1
  let calls := f.2 ++ srch1.Encode sentences ++ srch1.NewStates
    ++ [Call.NewHistories srch1.normalizeScore_, Call.GetFirstHyps]
  let m0 : Machine :=
    { beamSizes := List.replicate sentences.size 1
      prevHyps := C.GetFirstHyps sentences
      decoderStep := 0
      calls := calls
      steps := [] }
  let m := srch1.decodeLoop C ((3 * sentences.GetMaxLength) % 18446744073709551616) m0
  (srch1, { m with calls := m.calls ++ srch1.CleanAfterTranslation })

/-- Whether a beam holds a survivor, a hypothesis whose word is not `EOS_ID`. -/
def hasSurvivor (EOS_ID : Word) (beams : Beams) : Bool :=
  beams.any (fun b => b.any (fun h => h.GetWord != EOS_ID))

/-- The survivors of one row: its hypotheses whose word is not `EOS_ID`, in order. -/
def rowSurvivors (EOS_ID : Word) (b : Beam) : Beam :=
  b.filter (fun h => h.GetWord != EOS_ID)

/-- The number of finished hypotheses of one row, those whose word is `EOS_ID`. -/
def rowFinished (EOS_ID : Word) (b : Beam) : Nat :=
  b.countP (fun h => h.GetWord == EOS_ID)

/-! ### Vocabulary for the statements about the decode loop -/

/-- The record of the loop body run at step `t` from `prevHyps` and `beamSizes`, in closed
form. -/
def Search.stepRecord (srch : Search) (C : Collaborators) (t : Nat) (prevHyps : Beam)
    (beamSizes : List Nat) : StepRecord :=
  let sel := if t = 0 then beamSizes.map (fun _ => srch.maxBeamSize_ % 4294967296)
    else beamSizes
  let beams : Beams :=
    (List.range sel.length).map (C.BestHyps t prevHyps srch.filterIndices_ sel)
  let survivors := (beams.map (rowSurvivors C.EOS_ID)).flatten
  { prevHyps := prevHyps
    beamSizesIn := beamSizes
    beamSizesSel := sel
    beams := beams
    survivors := survivors
    beamSizesOut := (survivorLoop C.EOS_ID beams sel.length sel).2
    hasSurvivors := decide (survivors ≠ []) }

/-- The records of at most `n` consecutive loop bodies started at step `t`, in closed
form: the run stops after the first body that leaves no survivors. -/
def Search.runSteps (srch : Search) (C : Collaborators) :
    Nat → Nat → Beam → List Nat → List StepRecord
  | 0, _, _, _ => []
  | n + 1, t, prevHyps, beamSizes =>
    let s := srch.stepRecord C t prevHyps beamSizes
    s :: (if s.hasSurvivors then srch.runSteps C n (t + 1) s.survivors s.beamSizesOut
          else [])

/-- The collaborator calls of one loop body, read off its record. -/
def Search.stepCalls (srch : Search) (s : StepRecord) : List Call :=
  (List.range srch.numScorers).map (fun i => Call.Decode i s.beamSizesIn)
    ++ [Call.BestHyps s.prevHyps srch.filterIndices_ s.beamSizesSel, Call.HistoriesAdd s.beams]
    ++ (if s.hasSurvivors then [Call.AssembleBeamState 0 s.survivors] else [])

/-- The calls `Translate` makes before the decode loop. -/
def Search.preludeCalls (srch : Search) (C : Collaborators) (sentences : Sentences) :
    List Call :=
  (if srch.filter_ then (srch.FilterTargetVocab C sentences).2 else [])
    ++ srch.Encode sentences ++ srch.NewStates
    ++ [Call.NewHistories srch.normalizeScore_, Call.GetFirstHyps]

/-- The 1-based index of the first step whose selected hypotheses contain no survivor, or
`dflt` when there is none. -/
def firstDeadStep (EOS_ID : Word) (steps : List StepRecord) (dflt : Nat) : Nat :=
  match steps.findIdx? (fun s => !hasSurvivor EOS_ID s.beams) with
  | some i => i + 1
  | none => dflt

/-- The successive values of `beamSizes` over a run of `Translate`: the initial value,
then for every executed step the value passed to `BestHyps` (after the reset of step 0)
and the value left by `CalcBeam`. -/
def beamSizesTimeline (init : List Nat) (steps : List StepRecord) : List (List Nat) :=
  init :: steps.flatMap (fun s => [s.beamSizesSel, s.beamSizesOut])

/-- The later value `b` of `beamSizes` has the rows of the earlier value `a`, and row by
row no entry of `b` exceeds the entry of `a`. -/
def RowwiseLE (a b : List Nat) : Prop :=
  b.length = a.length ∧ ∀ r, r < b.length → b.getD r 0 ≤ a.getD r 0

instance (a b : List Nat) : Decidable (RowwiseLE a b) :=
  inferInstanceAs (Decidable (b.length = a.length ∧ ∀ r, r < b.length → b.getD r 0 ≤ a.getD r 0))

/-- The contract of `BestHyps`: no row receives more hypotheses than its beam width. -/
def AtMostBeamSize (C : Collaborators) : Prop :=
  ∀ t prevHyps filterIndices beamSizes r, r < beamSizes.length →
    (C.BestHyps t prevHyps filterIndices beamSizes r).length ≤ beamSizes.getD r 0

/-- The stronger behaviour of `BestHyps`: every row receives exactly as many hypotheses
as its beam width. -/
def ExactlyBeamSize (C : Collaborators) : Prop :=
  ∀ t prevHyps filterIndices beamSizes r, r < beamSizes.length →
    (C.BestHyps t prevHyps filterIndices beamSizes r).length = beamSizes.getD r 0

/-- Whether a call is `scorers_[i]->AssembleBeamState(...)`. -/
def Call.isAssembleOf (i : Nat) : Call → Bool
  | Call.AssembleBeamState j _ => j == i
  | _ => false

/-- Whether a call is `CleanUpAfterSentence` on some scorer. -/
def Call.isCleanUp : Call → Bool
  | Call.CleanUpAfterSentence _ => true
  | _ => false

/-- Whether a call is `GetFilteredVocab` or `Scorer::Filter`. -/
def Call.isFiltering : Call → Bool
  | Call.GetFilteredVocab _ _ => true
  | Call.Filter _ _ => true
  | _ => false

/-- Whether a call is `BestHyps::CalcBeam`; `Search::CalcBeam` makes exactly one per
loop body. -/
def Call.isBestHyps : Call → Bool
  | Call.BestHyps _ _ _ => true
  | _ => false

/-! ### Example collaborators and inputs -/

/-- A seed hypothesis per sentence, as `Histories::GetFirstHyps` returns. -/
def seedHyps (s : Sentences) : Beam := s.coll.map (fun _ => ⟨0, 0⟩)

/-- Collaborators whose `BestHyps` fills every row with `beamSizes[row]` hypotheses, all
carrying the end-of-sequence token 0: a scorer that always scores EOS highest. -/
def alwaysEOS : Collaborators where
  EOS_ID := 0
  GetVocabSize := 8
  GetFilteredVocab := fun srcWords _ => srcWords
  GetFirstHyps := seedHyps
  BestHyps := fun _ _ _ beamSizes batchId => List.replicate (beamSizes.getD batchId 0) ⟨0, 0⟩

/-- Collaborators whose `BestHyps` fills every row with `beamSizes[row]` hypotheses, none
carrying the end-of-sequence token 0. -/
def neverEOS : Collaborators where
  EOS_ID := 0
  GetVocabSize := 8
  GetFilteredVocab := fun srcWords _ => srcWords
  GetFirstHyps := seedHyps
  BestHyps := fun _ _ _ beamSizes batchId => List.replicate (beamSizes.getD batchId 0) ⟨5, 0⟩

/-- Collaborators whose `BestHyps` breaks its contract: every row gets one hypothesis more
than `beamSizes[row]`, all carrying the end-of-sequence token 0. -/
def overfullEOS : Collaborators where
  EOS_ID := 0
  GetVocabSize := 8
  GetFilteredVocab := fun srcWords _ => srcWords
  GetFirstHyps := seedHyps
  BestHyps := fun _ _ _ beamSizes batchId =>
    List.replicate (beamSizes.getD batchId 0 + 1) ⟨0, 0⟩

/-- Collaborators whose `BestHyps` fills every row with `beamSizes[row]` hypotheses, the
first of them finished (token 0) from decode step 1 on, the others alive (token 5). -/
def mixedEOS : Collaborators where
  EOS_ID := 0
  GetVocabSize := 8
  GetFilteredVocab := fun srcWords _ => srcWords
  GetFirstHyps := seedHyps
  BestHyps := fun decoderStep _ _ beamSizes batchId =>
    (List.range (beamSizes.getD batchId 0)).map
      (fun k => if k = 0 ∧ 0 < decoderStep then ⟨0, k⟩ else ⟨5, k⟩)

/-- A batch of one sentence of length 3. -/
def oneSentence : Sentences := ⟨[⟨[4, 7, 4]⟩]⟩

/-- A batch of one sentence of length 1. -/
def shortSentence : Sentences := ⟨[⟨[4]⟩]⟩

/-- A batch of two sentences of lengths 2 and 1. -/
def twoSentences : Sentences := ⟨[⟨[3, 1]⟩, ⟨[2]⟩]⟩

/-- The loop variables at the start of decode step 1 of a batch of two rows with beam
widths 2 and 1. -/
def stepOneMachine : Machine where
  beamSizes := [2, 1]
  prevHyps := [⟨5, 0⟩, ⟨5, 1⟩, ⟨5, 0⟩]
  decoderStep := 1
  calls := []
  steps := []

/-! ## Theorems -/

namespace GPU
namespace mblas

theorem gSumLoop_eq_foldl {T : Type} [Add T] (data : Nat → T) (n i : Nat) (ret : T) :
    gSumLoop data n i ret
      = ((List.range n).map (fun k => data (i + k))).foldl (fun acc x => acc + x) ret := by
  induction n generalizing i ret with
  | zero => simp [gSumLoop]
  | succ n ih =>
    rw [gSumLoop, ih, List.range_succ_eq_map]
    simp only [List.map_cons, List.foldl_cons, List.map_map, Nat.add_zero]
    congr 2
    funext k
    simp only [Function.comp_apply]
    congr 1
    omega

theorem gSum_eq_foldl {T : Type} [Zero T] [Add T] (data : Nat → T) (count : Nat) :
    gSum data count = ((List.range count).map data).foldl (fun acc x => acc + x) 0 := by
  unfold gSum
  rw [gSumLoop_eq_foldl]
  simp

theorem gSum_eq_list_sum {T : Type} [AddMonoid T] (data : Nat → T) (count : Nat) :
    gSum data count = ((List.range count).map data).sum := by
  rw [gSum_eq_foldl, List.sum_eq_foldl]

theorem gSum_zeros {T : Type} [AddMonoid T] (data : Nat → T) (count : Nat)
    (h : ∀ i, i < count → data i = 0) : gSum data count = 0 := by
  rw [gSum_eq_list_sum]
  induction count with
  | zero => simp
  | succ n ih =>
    rw [List.range_succ, List.map_append, List.sum_append, ih (fun i hi => h i (by omega))]
    simp [h n (by omega)]

theorem gSum_single {T : Type} [AddMonoid T] (data : Nat → T) (count p : Nat)
    (hp : p < count) (h : ∀ i, i < count → i ≠ p → data i = 0) :
    gSum data count = data p := by
  induction count with
  | zero => omega
  | succ n ih =>
    rw [gSum_eq_list_sum, List.range_succ, List.map_append, List.sum_append,
      ← gSum_eq_list_sum]
    by_cases hpn : p = n
    · subst hpn
      rw [gSum_zeros data p (fun i hi => h i (by omega) (by omega))]
      simp
    · rw [ih (by omega) (fun i hi hne => h i (by omega) hne)]
      simp [h n (by omega) (by omega)]

/-- C7: the kernel `gSum` (and the host wrapper `Sum` that launches it on one thread)
leaves in `ret` the left-to-right sum of `data[0..count)` started from 0, for any element
type with exact (associative, unital) addition. Consequently the result is 0 for
`count = 0`, 0 for a buffer of zeros, and `v` for a buffer whose only nonzero element is
`v = data[p]`, whatever the position `p < count`. -/
theorem gSum_correct {T : Type} [AddMonoid T] (data : Nat → T) (count : Nat) :
    gSum data count = ((List.range count).map data).foldl (fun acc x => acc + x) 0
    ∧ Sum data count = gSum data count
    ∧ gSum data 0 = 0
    ∧ ((∀ i, i < count → data i = 0) → gSum data count = 0)
    ∧ (∀ p, p < count → (∀ i, i < count → i ≠ p → data i = 0) →
        gSum data count = data p) :=
  ⟨gSum_eq_foldl data count, rfl, rfl, gSum_zeros data count,
    fun p hp h => gSum_single data count p hp h⟩

/-- Witness for C7 on the buffer `[0, 0, 7, 0]` of integers: the hypotheses hold with
`p = 2` and the reduction returns 7; on the zero buffer of the same size it returns 0. -/
theorem gSum_correct_witness :
    (2 < 4 ∧ (∀ i, i < 4 → i ≠ 2 → (fun i : Nat => if i = 2 then (7 : Int) else 0) i = 0)
      ∧ gSum (fun i : Nat => if i = 2 then (7 : Int) else 0) 4 = 7)
    ∧ ((∀ i, i < 4 → (fun _ : Nat => (0 : Int)) i = 0)
      ∧ gSum (fun _ : Nat => (0 : Int)) 4 = 0) :=
  ⟨⟨by decide, by decide,
      (gSum_correct (fun i : Nat => if i = 2 then (7 : Int) else 0) 4).2.2.2.2 2
        (by decide) (by decide)⟩,
    ⟨by decide, (gSum_correct (fun _ : Nat => (0 : Int)) 4).2.2.2.1 (by decide)⟩⟩

end mblas
end GPU

namespace FPGA
namespace mblas

theorem copyRow_loop {α : Type} (g : Nat → α) (b : Nat) (n : Nat) (o : List α) :
    (((List.range n).foldl (fun o i => o.set (b + i) (g i)) o).length = o.length) ∧
    ∀ k, ((List.range n).foldl (fun o i => o.set (b + i) (g i)) o)[k]? =
      if b ≤ k ∧ k < b + n ∧ k < o.length then some (g (k - b)) else o[k]? := by
  induction n with
  | zero =>
    refine ⟨by simp, fun k => ?_⟩
    rw [if_neg (by omega)]
    simp
  | succ n ih =>
    rw [List.range_succ, List.foldl_append]
    simp only [List.foldl_cons, List.foldl_nil, List.length_set]
    refine ⟨ih.1, fun k => ?_⟩
    rw [List.getElem?_set, ih.1, ih.2 k]
    by_cases h1 : b + n = k
    · subst h1
      by_cases h2 : b + n < o.length
      · simp [h2]
      · have : o.length ≤ b + n := by omega
        simp [h2, this]
    · simp only [h1, if_false]
      by_cases h3 : b ≤ k ∧ k < b + n ∧ k < o.length
      · rw [if_pos h3, if_pos (by omega)]
      · rw [if_neg h3, if_neg (by omega)]

theorem copyRows_loop {α : Type} (g : Nat → Nat → α) (cols : Nat) (m : Nat) (o : List α) :
    (((List.range m).foldl (fun o j =>
        (List.range cols).foldl (fun o i => o.set (j * cols + i) (g j i)) o) o).length = o.length) ∧
    (∀ j i, j < m → i < cols → j * cols + i < o.length →
      ((List.range m).foldl (fun o j =>
        (List.range cols).foldl (fun o i => o.set (j * cols + i) (g j i)) o) o)[j * cols + i]?
        = some (g j i)) ∧
    (∀ k, m * cols ≤ k →
      ((List.range m).foldl (fun o j =>
        (List.range cols).foldl (fun o i => o.set (j * cols + i) (g j i)) o) o)[k]? = o[k]?) := by
  induction m with
  | zero =>
    refine ⟨by simp, fun j i hj => by omega, fun k _ => by simp⟩
  | succ m ih =>
    rw [List.range_succ, List.foldl_append]
    simp only [List.foldl_cons, List.foldl_nil]
    obtain ⟨ihl, ihw, ihk⟩ := ih
    have hin := copyRow_loop (g m) (m * cols) cols
      ((List.range m).foldl (fun o j =>
        (List.range cols).foldl (fun o i => o.set (j * cols + i) (g j i)) o) o)
    refine ⟨by rw [hin.1, ihl], fun j i hj hi hlt => ?_, fun k hk => ?_⟩
    · rw [hin.2, ihl]
      by_cases hjm : j = m
      · subst hjm
        rw [if_pos (by omega)]
        congr 2
        omega
      · have hj' : j < m := by omega
        have : (j + 1) * cols ≤ m * cols := Nat.mul_le_mul_right cols hj'
        have h2 : j * cols + i < m * cols := by
          rw [Nat.add_mul, Nat.one_mul] at this; omega
        rw [if_neg (by omega)]
        exact ihw j i hj' hi hlt
    · rw [hin.2, ihl]
      rw [Nat.add_mul, Nat.one_mul] at hk
      rw [if_neg (by omega)]
      exact ihk k (by omega)

theorem Resize_length {α : Type} [Inhabited α] (m : Matrix α) (rows cols : Nat) :
    (m.Resize rows cols).data.length = rows * cols := by
  simp only [Matrix.Resize, List.length_append, List.length_take, List.length_replicate]
  omega

theorem row_getElem? {α : Type} (m : Matrix α) (i c : Nat) :
    (m.row i)[c]? = if c < m.cols then m.data[i * m.cols + c]? else none := by
  unfold Matrix.row
  rw [List.getElem?_take, List.getElem?_drop]

theorem Assemble_dims {α : Type} [Inhabited α] (Out In : Matrix α) (idx : List Nat) :
    (Assemble Out In idx).1.rows = idx.length ∧ (Assemble Out In idx).1.cols = In.cols
    ∧ (Assemble Out In idx).2 = In := by
  simp [Assemble, CopyRows, gCopyRows, Matrix.Resize, Matrix.dim]

theorem Assemble_data {α : Type} [Inhabited α] (Out In : Matrix α) (idx : List Nat)
    (hcols : In.cols < 4294967296) (hlen : idx.length < 4294967296) :
    (Assemble Out In idx).1.data.length = idx.length * In.cols
    ∧ ∀ j i, j < idx.length → i < In.cols →
        (Assemble Out In idx).1.data[j * In.cols + i]?
          = some (In.data.getD (idx.getD j 0 * In.cols + i) default) := by
  have hsp := copyRows_loop
    (fun j i => In.data.getD (idx.getD j 0 * In.cols + i) default) In.cols idx.length
    (Out.Resize idx.length In.cols).data
  have e1 : In.cols % 4294967296 = In.cols := Nat.mod_eq_of_lt hcols
  have e2 : idx.length % 4294967296 = idx.length := Nat.mod_eq_of_lt hlen
  have hd : (Assemble Out In idx).1.data =
      (List.range idx.length).foldl (fun o j =>
        (List.range In.cols).foldl (fun o i => o.set (j * In.cols + i)
          (In.data.getD (idx.getD j 0 * In.cols + i) default)) o)
        (Out.Resize idx.length In.cols).data := by
    simp [Assemble, CopyRows, gCopyRows, Matrix.dim, e1, e2]
  rw [hd]
  refine ⟨by rw [hsp.1, Resize_length], fun j i hj hi => ?_⟩
  apply hsp.2.1 j i hj hi
  rw [Resize_length]
  have : (j + 1) * In.cols ≤ idx.length * In.cols := Nat.mul_le_mul_right _ hj
  rw [Nat.add_mul, Nat.one_mul] at this
  omega

theorem Matrix.eq_of_fields {α : Type} (a b : Matrix α) (h1 : a.rows = b.rows)
    (h2 : a.cols = b.cols) (h3 : a.data = b.data) : a = b := by
  cases a; cases b; simp_all

theorem Assemble_row {α : Type} [Inhabited α] (Out In : Matrix α) (idx : List Nat)
    (hwf : In.WellFormed) (hidx : ∀ x ∈ idx, x < In.rows)
    (hcols : In.cols < 4294967296) (hlen : idx.length < 4294967296)
    (i : Nat) (hi : i < idx.length) :
    (Assemble Out In idx).1.row i = In.row (idx.getD i 0) := by
  obtain ⟨_, hc, _⟩ := Assemble_dims Out In idx
  obtain ⟨_, hcell⟩ := Assemble_data Out In idx hcols hlen
  have hx : idx.getD i 0 < In.rows := by
    rw [List.getD_eq_getElem idx 0 hi]
    exact hidx _ (List.getElem_mem _)
  apply List.ext_getElem?
  intro c
  rw [row_getElem?, row_getElem?, hc]
  by_cases hcc : c < In.cols
  · rw [if_pos hcc, if_pos hcc, hcell i c hi hcc]
    have hb : idx.getD i 0 * In.cols + c < In.data.length := by
      rw [hwf]
      have : (idx.getD i 0 + 1) * In.cols ≤ In.rows * In.cols := Nat.mul_le_mul_right _ hx
      rw [Nat.add_mul, Nat.one_mul] at this
      omega
    rw [List.getD_eq_getElem _ _ hb, List.getElem?_eq_getElem hb]
  · rw [if_neg hcc, if_neg hcc]

theorem Assemble_identity {α : Type} [Inhabited α] (Out In : Matrix α)
    (hwf : In.WellFormed)
    (hcols : In.cols < 4294967296) (hlen : In.rows < 4294967296) :
    (Assemble Out In (List.range In.rows)).1 = In := by
  have hl : (List.range In.rows).length = In.rows := List.length_range _
  obtain ⟨hr, hc, _⟩ := Assemble_dims Out In (List.range In.rows)
  obtain ⟨hlen2, hcell⟩ := Assemble_data Out In (List.range In.rows) hcols (by rw [hl]; exact hlen)
  rw [hl] at hr hlen2 hcell
  apply Matrix.eq_of_fields _ _ hr hc
  apply List.ext_getElem?
  intro k
  by_cases hk : k < In.rows * In.cols
  · have hcpos : 0 < In.cols := by
      rcases Nat.eq_zero_or_pos In.cols with h0 | h0
      · rw [h0] at hk; omega
      · exact h0
    have hj : k / In.cols < In.rows := by
      rw [Nat.div_lt_iff_lt_mul hcpos]; exact hk
    have hi : k % In.cols < In.cols := Nat.mod_lt _ hcpos
    have hkd : k / In.cols * In.cols + k % In.cols = k := by
      rw [Nat.mul_comm]; exact Nat.div_add_mod k In.cols
    have := hcell (k / In.cols) (k % In.cols) hj hi
    rw [List.getD_eq_getElem _ 0 (by rw [hl]; exact hj), List.getElem_range, hkd] at this
    rw [this]
    have hb : k < In.data.length := by rw [hwf]; exact hk
    rw [List.getD_eq_getElem _ _ hb, List.getElem?_eq_getElem hb]
  · rw [List.getElem?_eq_none (by rw [hlen2]; omega),
      List.getElem?_eq_none (by rw [hwf]; omega)]

/-- C6 (against the kernel `gCopyRows` modelled from the spec): for a well-formed source
`In` and an index list `idx` (any order, duplicates allowed, every entry below `In.rows`),
with `In.cols` and `len(idx)` representable in the 32-bit kernel arguments,
`Assemble(Out, In, idx)` leaves `Out` with `len(idx)` rows and `In.dim(1)` columns, a buffer
of exactly that size, row `i` of `Out` equal to row `idx[i]` of `In`, and `In` unmodified.
The identity index list `[0..In.rows)` gives `Out == In`, and `idx = [0,0,2]` gives three
rows: rows 0 and 1 equal row 0 of `In`, row 2 equals row 2 of `In`. -/
theorem Assemble_correct {α : Type} [Inhabited α] (Out In : Matrix α) (idx : List Nat)
    (hwf : In.WellFormed) (hidx : ∀ x ∈ idx, x < In.rows)
    (hcols : In.cols < 4294967296) (hlen : idx.length < 4294967296) :
    (Assemble Out In idx).1.rows = idx.length
    ∧ (Assemble Out In idx).1.cols = In.dim 1
    ∧ (Assemble Out In idx).1.WellFormed
    ∧ (∀ i, i < idx.length → (Assemble Out In idx).1.row i = In.row (idx.getD i 0))
    ∧ (Assemble Out In idx).2 = In
    ∧ (idx = List.range In.rows → (Assemble Out In idx).1 = In)
    ∧ (idx = [0, 0, 2] →
        (Assemble Out In idx).1.rows = 3
        ∧ (Assemble Out In idx).1.row 0 = In.row 0
        ∧ (Assemble Out In idx).1.row 1 = In.row 0
        ∧ (Assemble Out In idx).1.row 2 = In.row 2) := by
  obtain ⟨hr, hc, hin⟩ := Assemble_dims Out In idx
  have hrow := Assemble_row Out In idx hwf hidx hcols hlen
  refine ⟨hr, by rw [hc]; rfl, ?_, hrow, hin, ?_, ?_⟩
  · unfold Matrix.WellFormed
    rw [(Assemble_data Out In idx hcols hlen).1, hr, hc]
  · intro hid
    subst hid
    exact Assemble_identity Out In hwf hcols (by simpa using hlen)
  · intro h3
    subst h3
    exact ⟨hr, hrow 0 (by decide), hrow 1 (by decide), hrow 2 (by decide)⟩

/-- Witness for C6: a 3 x 2 integer matrix gathered with `[0, 0, 2]` into an empty
destination. -/
theorem Assemble_correct_witness :
    (Matrix.mk 3 2 [1, 2, 3, 4, 5, (6 : Int)]).WellFormed
    ∧ (∀ x ∈ [0, 0, 2], x < (Matrix.mk 3 2 [1, 2, 3, 4, 5, (6 : Int)]).rows)
    ∧ (Assemble (Matrix.mk 0 0 []) (Matrix.mk 3 2 [1, 2, 3, 4, 5, (6 : Int)]) [0, 0, 2]).1
        = Matrix.mk 3 2 [1, 2, 1, 2, 5, 6]
    ∧ (Assemble (Matrix.mk 0 0 []) (Matrix.mk 3 2 [1, 2, 3, 4, 5, (6 : Int)]) [0, 0, 2]).1.row 1
        = (Matrix.mk 3 2 [1, 2, 3, 4, 5, (6 : Int)]).row 0 :=
  ⟨by decide, by decide, by decide,
    (Assemble_correct (Matrix.mk 0 0 []) (Matrix.mk 3 2 [1, 2, 3, 4, 5, (6 : Int)]) [0, 0, 2]
      (by decide) (by decide) (by decide) (by decide)).2.2.2.1 1 (by decide)⟩

end mblas
end FPGA

/-! ### `Search::CalcBeam` -/

theorem decUInt_iterate (k x : Nat) (hk : k ≤ x) (hx : x < 4294967296) :
    decUInt^[k] x = x - k := by
  induction k generalizing x with
  | zero => simp
  | succ k ih =>
    rw [Function.iterate_succ_apply]
    have h1 : decUInt x = x - 1 := by unfold decUInt; omega
    rw [h1, ih (x - 1) (by omega) (by omega)]
    omega

theorem decBeamSize_getElem? (bs : List Nat) (r r' : Nat) :
    (decBeamSize bs r)[r']? = if r' = r then bs[r]?.map decUInt else bs[r']? := by
  unfold decBeamSize
  rw [List.getElem?_set]
  by_cases h : r = r'
  · subst h
    simp only [if_true]
    by_cases h2 : r < bs.length
    · simp [h2, List.getD_eq_getElem _ _ h2]
    · simp [h2, List.getElem?_eq_none (Nat.le_of_not_lt h2)]
  · rw [if_neg h, if_neg (fun e => h e.symm)]

theorem rowLoop_spec (eos : Word) (r : Nat) (beam : Beam) (sv : Beam) (bs : List Nat) :
    (rowLoop eos r beam (sv, bs)).1 = sv ++ rowSurvivors eos beam
    ∧ ∀ r', (rowLoop eos r beam (sv, bs)).2[r']?
        = if r' = r then bs[r]?.map (decUInt^[rowFinished eos beam]) else bs[r']? := by
  induction beam generalizing sv bs with
  | nil =>
    refine ⟨by simp [rowLoop, rowSurvivors], fun r' => ?_⟩
    by_cases e : r' = r
    · subst e; simp [rowLoop, rowFinished]
    · simp [rowLoop, e]
  | cons h t ih =>
    have hstep : rowLoop eos r (h :: t) (sv, bs)
        = rowLoop eos r t (if h.GetWord ≠ eos then (sv ++ [h], bs)
            else (sv, decBeamSize bs r)) := by
      simp [rowLoop]
    rw [hstep]
    by_cases hw : h.GetWord = eos
    · simp only [hw, ne_eq, not_true_eq_false, if_false]
      obtain ⟨i1, i2⟩ := ih sv (decBeamSize bs r)
      refine ⟨?_, fun r' => ?_⟩
      · rw [i1]; simp [rowSurvivors, hw]
      · rw [i2 r']
        by_cases e : r' = r
        · simp only [e, if_true]
          rw [decBeamSize_getElem?]
          simp only [if_true, Option.map_map]
          congr 1
          simp [rowFinished, hw, Function.iterate_succ]
        · simp only [e, if_false]
          rw [decBeamSize_getElem?, if_neg e]
    · simp only [ne_eq, hw, not_false_eq_true, if_true]
      obtain ⟨i1, i2⟩ := ih (sv ++ [h]) bs
      refine ⟨?_, fun r' => ?_⟩
      · rw [i1]; simp [rowSurvivors, hw]
      · rw [i2 r']
        simp [rowFinished, hw]


theorem survivorLoop_spec (eos : Word) (beams : Beams) (n : Nat) (bs : List Nat) :
    (survivorLoop eos beams n bs).1
      = ((List.range n).map (fun r => rowSurvivors eos (beams.getD r []))).flatten
    ∧ ∀ r, (survivorLoop eos beams n bs).2[r]?
        = if r < n then bs[r]?.map (decUInt^[rowFinished eos (beams.getD r [])])
          else bs[r]? := by
  induction n with
  | zero => simp [survivorLoop]
  | succ n ih =>
    have hstep : survivorLoop eos beams (n + 1) bs
        = rowLoop eos n (beams.getD n []) (survivorLoop eos beams n bs) := by
      simp [survivorLoop, List.range_succ, List.foldl_append]
    obtain ⟨i1, i2⟩ := ih
    obtain ⟨j1, j2⟩ := rowLoop_spec eos n (beams.getD n [])
      (survivorLoop eos beams n bs).1 (survivorLoop eos beams n bs).2
    rw [hstep]
    refine ⟨?_, fun r => ?_⟩
    · rw [j1, i1, List.range_succ]
      simp
    · rw [j2 r]
      by_cases e : r = n
      · subst e
        rw [if_pos rfl, if_pos (Nat.lt_succ_self r), i2 r, if_neg (Nat.lt_irrefl r)]
      · rw [if_neg e, i2 r]
        by_cases h : r < n
        · rw [if_pos h, if_pos (by omega)]
        · rw [if_neg h, if_neg (by omega)]

theorem survivorLoop_length (eos : Word) (beams : Beams) (n : Nat) (bs : List Nat) :
    (survivorLoop eos beams n bs).2.length = bs.length := by
  have h := (survivorLoop_spec eos beams n bs).2
  rcases Nat.lt_trichotomy (survivorLoop eos beams n bs).2.length bs.length with hlt | heq | hgt
  · exfalso
    have h1 := h (survivorLoop eos beams n bs).2.length
    rw [List.getElem?_eq_none (Nat.le_refl _)] at h1
    rw [List.getElem?_eq_getElem hlt] at h1
    split at h1 <;> simp at h1
  · exact heq
  · exfalso
    have h1 := h bs.length
    rw [List.getElem?_eq_none (Nat.le_refl bs.length), List.getElem?_eq_getElem hgt] at h1
    split at h1 <;> simp at h1

theorem survivorLoop_getD (eos : Word) (beams : Beams) (n : Nat) (bs : List Nat) (r : Nat)
    (hr : r < n) (hfin : rowFinished eos (beams.getD r []) ≤ bs.getD r 0)
    (hu : bs.getD r 0 < 4294967296) :
    (survivorLoop eos beams n bs).2.getD r 0
      = bs.getD r 0 - rowFinished eos (beams.getD r []) := by
  have h := (survivorLoop_spec eos beams n bs).2 r
  rw [if_pos hr] at h
  rw [List.getD_eq_getElem?_getD, h]
  by_cases hb : r < bs.length
  · rw [List.getD_eq_getElem _ _ hb] at hfin hu ⊢
    rw [List.getElem?_eq_getElem hb]
    simp only [Option.map_some', Option.getD_some]
    exact decUInt_iterate _ _ hfin hu
  · rw [List.getD_eq_default _ _ (Nat.le_of_not_lt hb)] at hfin ⊢
    rw [List.getElem?_eq_none (Nat.le_of_not_lt hb)]
    simp

theorem callBestHyps_length (srch : Search) (C : Collaborators) (m : Machine) :
    (srch.callBestHyps C m).length = m.beamSizes.length := by
  simp [Search.callBestHyps]

theorem flatten_rows_eq (eos : Word) (beams : Beams) :
    ((List.range beams.length).map (fun r => rowSurvivors eos (beams.getD r []))).flatten
      = (beams.map (rowSurvivors eos)).flatten := by
  congr 1
  apply List.ext_getElem?
  intro i
  by_cases h : i < beams.length
  · simp [h, List.getD_eq_getElem _ _ h]
  · have h2 : beams.length ≤ i := Nat.le_of_not_lt h
    rw [List.getElem?_eq_none (by simpa using h2), List.getElem?_eq_none (by simpa using h2)]

/-- The value of `Search::CalcBeam` in closed form. -/
theorem CalcBeam_eq (srch : Search) (C : Collaborators) (selIn : List Nat) (m : Machine) :
    srch.CalcBeam C selIn m =
      (decide (((srch.callBestHyps C m).map (rowSurvivors C.EOS_ID)).flatten ≠ []),
        { beamSizes :=
            (survivorLoop C.EOS_ID (srch.callBestHyps C m) m.beamSizes.length m.beamSizes).2
          prevHyps :=
            if ((srch.callBestHyps C m).map (rowSurvivors C.EOS_ID)).flatten = [] then m.prevHyps
            else ((srch.callBestHyps C m).map (rowSurvivors C.EOS_ID)).flatten
          decoderStep := m.decoderStep
          calls := m.calls ++
            [Call.BestHyps m.prevHyps srch.filterIndices_ m.beamSizes,
              Call.HistoriesAdd (srch.callBestHyps C m)] ++
            (if ((srch.callBestHyps C m).map (rowSurvivors C.EOS_ID)).flatten = [] then []
              else [Call.AssembleBeamState 0
                ((srch.callBestHyps C m).map (rowSurvivors C.EOS_ID)).flatten])
          steps := m.steps ++
            [⟨m.prevHyps, selIn, m.beamSizes, srch.callBestHyps C m,
              ((srch.callBestHyps C m).map (rowSurvivors C.EOS_ID)).flatten,
              (survivorLoop C.EOS_ID (srch.callBestHyps C m) m.beamSizes.length m.beamSizes).2,
              decide (((srch.callBestHyps C m).map (rowSurvivors C.EOS_ID)).flatten ≠ [])⟩] }) := by
  have hs : (survivorLoop C.EOS_ID (srch.callBestHyps C m) m.beamSizes.length m.beamSizes).1
      = ((srch.callBestHyps C m).map (rowSurvivors C.EOS_ID)).flatten := by
    rw [(survivorLoop_spec _ _ _ _).1, ← callBestHyps_length srch C m, flatten_rows_eq]
  unfold Search.CalcBeam
  simp only [hs, List.length_eq_zero]
  by_cases h : ((srch.callBestHyps C m).map (rowSurvivors C.EOS_ID)).flatten = []
  · simp [h]
  · simp [h]

theorem rowSurvivors_add_rowFinished (eos : Word) (b : Beam) :
    (rowSurvivors eos b).length + rowFinished eos b = b.length := by
  induction b with
  | nil => simp [rowSurvivors, rowFinished]
  | cons h t ih =>
    unfold rowSurvivors rowFinished at ih ⊢
    by_cases hw : h.GetWord = eos
    · simp [hw, List.filter_cons, List.countP_cons] at ih ⊢
      omega
    · simp [hw, List.filter_cons, List.countP_cons] at ih ⊢
      omega

theorem mem_rowSurvivors (eos : Word) (b : Beam) (h : Hypothesis) :
    h ∈ rowSurvivors eos b ↔ h ∈ b ∧ h.GetWord ≠ eos := by
  simp [rowSurvivors]

/-- C2: in `Search::CalcBeam`, for whatever `beams` the `BestHyps` collaborator returns,
the `survivors` list is the concatenation over the batch rows, in increasing row order and
keeping each row's order, of the hypotheses whose word is not `EOS_ID`; it becomes
`prevHyps` when it is not empty. For every row `r` (a `uint` entry) for which `beams[r]`
has at most `beamSizes[r]` elements, the updated `beamSizes[r]` is the old one minus the
number of hypotheses of `beams[r]` whose word is `EOS_ID`. Every selected hypothesis is a
survivor exactly when its word is not `EOS_ID`, and survivors and finished hypotheses of a
row add up to the row. -/
theorem CalcBeam_partition (srch : Search) (C : Collaborators) (selIn : List Nat)
    (m : Machine) :
    (srch.CalcBeam C selIn m).2.steps
        = m.steps ++ [⟨m.prevHyps, selIn, m.beamSizes, srch.callBestHyps C m,
            ((srch.callBestHyps C m).map (rowSurvivors C.EOS_ID)).flatten,
            (srch.CalcBeam C selIn m).2.beamSizes, (srch.CalcBeam C selIn m).1⟩]
    ∧ ((srch.CalcBeam C selIn m).1 = true →
        (srch.CalcBeam C selIn m).2.prevHyps
          = ((srch.callBestHyps C m).map (rowSurvivors C.EOS_ID)).flatten)
    ∧ (srch.CalcBeam C selIn m).2.beamSizes.length = m.beamSizes.length
    ∧ (∀ r, r < m.beamSizes.length → m.beamSizes.getD r 0 < 4294967296 →
        ((srch.callBestHyps C m).getD r []).length ≤ m.beamSizes.getD r 0 →
        (srch.CalcBeam C selIn m).2.beamSizes.getD r 0
          = m.beamSizes.getD r 0 - rowFinished C.EOS_ID ((srch.callBestHyps C m).getD r []))
    ∧ (∀ r, (rowSurvivors C.EOS_ID ((srch.callBestHyps C m).getD r [])).length
          + rowFinished C.EOS_ID ((srch.callBestHyps C m).getD r [])
        = ((srch.callBestHyps C m).getD r []).length)
    ∧ (∀ r h, h ∈ (srch.callBestHyps C m).getD r [] →
        (h ∈ rowSurvivors C.EOS_ID ((srch.callBestHyps C m).getD r []) ↔
          h.GetWord ≠ C.EOS_ID)) := by
  rw [CalcBeam_eq]
  refine ⟨rfl, ?_, survivorLoop_length _ _ _ _, ?_,
    fun r => rowSurvivors_add_rowFinished _ _, ?_⟩
  · intro h
    simp only [decide_eq_true_eq] at h
    simp only [if_neg h]
  · intro r hr hu hle
    apply survivorLoop_getD _ _ _ _ _ hr _ hu
    have := rowSurvivors_add_rowFinished C.EOS_ID ((srch.callBestHyps C m).getD r [])
    omega
  · intro r h hm
    rw [mem_rowSurvivors]
    exact ⟨fun x => x.2, fun x => ⟨hm, x⟩⟩

/-- Witness for C2: two rows with beam widths 2 and 1 whose first selected hypothesis is
finished. Row 0 keeps one survivor and its width drops to 1; row 1 keeps none and its
width drops to 0. -/
theorem CalcBeam_partition_witness :
    ((Search.mk 1 false 2 false []).CalcBeam mixedEOS [2, 1] stepOneMachine).1 = true
    ∧ ((Search.mk 1 false 2 false []).CalcBeam mixedEOS [2, 1] stepOneMachine).2.prevHyps
        = [⟨5, 1⟩]
    ∧ ((Search.mk 1 false 2 false []).CalcBeam mixedEOS [2, 1] stepOneMachine).2.beamSizes
        = [1, 0]
    ∧ ((Search.mk 1 false 2 false []).CalcBeam mixedEOS [2, 1] stepOneMachine).2.prevHyps
        = (((Search.mk 1 false 2 false []).callBestHyps mixedEOS stepOneMachine).map
            (rowSurvivors mixedEOS.EOS_ID)).flatten
    ∧ ((Search.mk 1 false 2 false []).CalcBeam mixedEOS [2, 1] stepOneMachine).2.beamSizes.getD
          0 0
        = stepOneMachine.beamSizes.getD 0 0
          - rowFinished mixedEOS.EOS_ID
              (((Search.mk 1 false 2 false []).callBestHyps mixedEOS stepOneMachine).getD 0 []) :=
  ⟨by decide, by decide, by decide,
    (CalcBeam_partition (Search.mk 1 false 2 false []) mixedEOS [2, 1] stepOneMachine).2.1
      (by decide),
    (CalcBeam_partition (Search.mk 1 false 2 false []) mixedEOS [2, 1] stepOneMachine).2.2.2.1
      0 (by decide) (by decide) (by decide)⟩

/-! ### The decode loop in closed form -/

theorem loopBody_eq (srch : Search) (C : Collaborators) (m : Machine) :
    srch.loopBody C m =
      ((srch.stepRecord C m.decoderStep m.prevHyps m.beamSizes).hasSurvivors,
        { beamSizes := (srch.stepRecord C m.decoderStep m.prevHyps m.beamSizes).beamSizesOut
          prevHyps :=
            if (srch.stepRecord C m.decoderStep m.prevHyps m.beamSizes).hasSurvivors then
              (srch.stepRecord C m.decoderStep m.prevHyps m.beamSizes).survivors
            else m.prevHyps
          decoderStep := m.decoderStep
          calls := m.calls
            ++ srch.stepCalls (srch.stepRecord C m.decoderStep m.prevHyps m.beamSizes)
          steps := m.steps ++ [srch.stepRecord C m.decoderStep m.prevHyps m.beamSizes] }) := by
  unfold Search.loopBody
  rw [CalcBeam_eq]
  by_cases h0 : m.decoderStep = 0
  · simp only [h0, if_true, Search.stepRecord, Search.callBestHyps, Search.stepCalls,
      List.length_map]
    generalize (List.map (rowSurvivors C.EOS_ID)
        (List.map (C.BestHyps 0 m.prevHyps srch.filterIndices_
          (List.map (fun _ => srch.maxBeamSize_ % 4294967296) m.beamSizes))
          (List.range m.beamSizes.length))).flatten = X
    cases X <;> simp
  · simp only [h0, if_false, Search.stepRecord, Search.callBestHyps, Search.stepCalls]
    generalize (List.map (rowSurvivors C.EOS_ID)
        (List.map (C.BestHyps m.decoderStep m.prevHyps srch.filterIndices_ m.beamSizes)
          (List.range m.beamSizes.length))).flatten = X
    cases X <;> simp

theorem decodeLoop_eq (srch : Search) (C : Collaborators) (n : Nat) (m : Machine) :
    (srch.decodeLoop C n m).steps
        = m.steps ++ srch.runSteps C n m.decoderStep m.prevHyps m.beamSizes
    ∧ (srch.decodeLoop C n m).calls
        = m.calls ++ (srch.runSteps C n m.decoderStep m.prevHyps m.beamSizes).flatMap
            srch.stepCalls := by
  induction n generalizing m with
  | zero => simp [Search.decodeLoop, Search.runSteps]
  | succ n ih =>
    rw [Search.decodeLoop, Search.runSteps, loopBody_eq]
    by_cases hs : (srch.stepRecord C m.decoderStep m.prevHyps m.beamSizes).hasSurvivors = true
    · simp only [hs, if_true]
      obtain ⟨i1, i2⟩ := ih
        { beamSizes := (srch.stepRecord C m.decoderStep m.prevHyps m.beamSizes).beamSizesOut
          prevHyps := (srch.stepRecord C m.decoderStep m.prevHyps m.beamSizes).survivors
          decoderStep := m.decoderStep + 1
          calls := m.calls
            ++ srch.stepCalls (srch.stepRecord C m.decoderStep m.prevHyps m.beamSizes)
          steps := m.steps ++ [srch.stepRecord C m.decoderStep m.prevHyps m.beamSizes] }
      rw [i1, i2]
      simp
    · simp only [hs, if_false]
      simp

theorem Translate_fst (srch : Search) (C : Collaborators) (sentences : Sentences) :
    (srch.Translate C sentences).1
      = if srch.filter_ then (srch.FilterTargetVocab C sentences).1 else srch := by
  unfold Search.Translate
  by_cases h : srch.filter_ = true <;> simp [h]

theorem Translate_fst_fields (srch : Search) (C : Collaborators) (sentences : Sentences) :
    (srch.Translate C sentences).1.numScorers = srch.numScorers
    ∧ (srch.Translate C sentences).1.maxBeamSize_ = srch.maxBeamSize_
    ∧ (srch.Translate C sentences).1.normalizeScore_ = srch.normalizeScore_
    ∧ (srch.Translate C sentences).1.filter_ = srch.filter_ := by
  rw [Translate_fst]
  by_cases h : srch.filter_ = true <;> simp [h, Search.FilterTargetVocab]

/-- `Translate` in closed form: the step records are those of `runSteps` from the seed
beam, and the call log is the prelude, the calls of the steps and the cleanup. -/
theorem Translate_eq (srch : Search) (C : Collaborators) (sentences : Sentences) :
    (srch.Translate C sentences).2.steps
        = (srch.Translate C sentences).1.runSteps C
            ((3 * sentences.GetMaxLength) % 18446744073709551616) 0
            (C.GetFirstHyps sentences) (List.replicate sentences.size 1)
    ∧ (srch.Translate C sentences).2.calls
        = srch.preludeCalls C sentences
          ++ (srch.Translate C sentences).2.steps.flatMap
              (srch.Translate C sentences).1.stepCalls
          ++ srch.CleanAfterTranslation := by
  have hf := Translate_fst srch C sentences
  unfold Search.Translate at hf ⊢
  simp only at hf ⊢
  rw [hf]
  generalize hb : (3 * sentences.GetMaxLength) % 18446744073709551616 = bound
  obtain ⟨h1, h2⟩ := decodeLoop_eq
    (if srch.filter_ then (srch.FilterTargetVocab C sentences).1 else srch) C bound
    { beamSizes := List.replicate sentences.size 1
      prevHyps := C.GetFirstHyps sentences
      decoderStep := 0
      calls := (if srch.filter_ = true then srch.FilterTargetVocab C sentences
            else (srch, [])).2
        ++ Search.Encode (if srch.filter_ then (srch.FilterTargetVocab C sentences).1 else srch)
            sentences
        ++ Search.NewStates (if srch.filter_ then (srch.FilterTargetVocab C sentences).1 else srch)
        ++ [Call.NewHistories
            (if srch.filter_ then (srch.FilterTargetVocab C sentences).1 else srch).normalizeScore_,
          Call.GetFirstHyps]
      steps := [] }
  simp only [List.nil_append] at h1
  refine ⟨h1, ?_⟩
  rw [h2, h1]
  by_cases hfl : srch.filter_ = true
  · simp [hfl, Search.preludeCalls, Search.FilterTargetVocab, Search.Encode, Search.NewStates,
      Search.CleanAfterTranslation]
  · simp [hfl, Search.preludeCalls, Search.Encode, Search.NewStates,
      Search.CleanAfterTranslation]

/-! ### C1: the number of decode steps -/

theorem hasSurvivor_eq (eos : Word) (beams : Beams) :
    hasSurvivor eos beams = decide ((beams.map (rowSurvivors eos)).flatten ≠ []) := by
  induction beams with
  | nil => simp [hasSurvivor]
  | cons b t ih =>
    unfold hasSurvivor at ih ⊢
    rw [List.any_cons, ih]
    simp only [List.map_cons, List.flatten_cons]
    by_cases hb : rowSurvivors eos b = []
    · have : b.any (fun h => h.GetWord != eos) = false := by
        rw [List.any_eq_false]
        intro x hx hne
        have : x ∈ rowSurvivors eos b := by
          unfold rowSurvivors
          exact List.mem_filter.mpr ⟨hx, hne⟩
        rw [hb] at this
        exact absurd this (List.not_mem_nil x)
      rw [this]
      simp [hb]
    · have : b.any (fun h => h.GetWord != eos) = true := by
        rw [List.any_eq_true]
        obtain ⟨x, hx⟩ := List.exists_mem_of_ne_nil _ hb
        unfold rowSurvivors at hx
        exact ⟨x, (List.mem_filter.mp hx).1, (List.mem_filter.mp hx).2⟩
      rw [this]
      simp [hb]

theorem stepRecord_flag (srch : Search) (C : Collaborators) (t : Nat) (p : Beam)
    (b : List Nat) :
    (srch.stepRecord C t p b).hasSurvivors
      = hasSurvivor C.EOS_ID (srch.stepRecord C t p b).beams := by
  rw [hasSurvivor_eq]
  rfl

theorem firstDeadStep_cons_alive (eos : Word) (s : StepRecord) (l : List StepRecord)
    (n : Nat) (h : hasSurvivor eos s.beams = true) :
    firstDeadStep eos (s :: l) (n + 1) = firstDeadStep eos l n + 1 := by
  cases hq : List.findIdx? (fun s => !hasSurvivor eos s.beams) l <;>
    simp [firstDeadStep, List.findIdx?_cons, h, hq]

theorem firstDeadStep_cons_dead (eos : Word) (s : StepRecord) (l : List StepRecord)
    (n : Nat) (h : hasSurvivor eos s.beams = false) :
    firstDeadStep eos (s :: l) n = 1 := by
  unfold firstDeadStep
  rw [List.findIdx?_cons]
  simp [h]

theorem runSteps_length (srch : Search) (C : Collaborators) (n t : Nat) (p : Beam)
    (b : List Nat) :
    (srch.runSteps C n t p b).length
      = min n (firstDeadStep C.EOS_ID (srch.runSteps C n t p b) n) := by
  induction n generalizing t p b with
  | zero => simp [Search.runSteps]
  | succ n ih =>
    rw [Search.runSteps]
    by_cases hs : (srch.stepRecord C t p b).hasSurvivors = true
    · simp only [hs, if_true]
      rw [firstDeadStep_cons_alive _ _ _ _ (by rw [← stepRecord_flag]; exact hs),
        List.length_cons, ih]
      omega
    · have hs' : (srch.stepRecord C t p b).hasSurvivors = false := by
        simpa using hs
      simp only [hs', Bool.false_eq_true, if_false]
      rw [firstDeadStep_cons_dead _ _ _ _ (by rw [← stepRecord_flag]; exact hs')]
      simp

/-! ### The shape of the call log -/

theorem mem_preludeCalls (srch : Search) (C : Collaborators) (sentences : Sentences)
    (c : Call) (hc : c ∈ srch.preludeCalls C sentences) :
    (srch.filter_ = true ∧
      (c = Call.GetVocabSize 0
        ∨ c = Call.GetFilteredVocab (collectSrcWords sentences) C.GetVocabSize
        ∨ ∃ i, c = Call.Filter i
            (C.GetFilteredVocab (collectSrcWords sentences) C.GetVocabSize)))
    ∨ (∃ i, c = Call.Encode i) ∨ (∃ i, c = Call.NewState i)
    ∨ (∃ i b, c = Call.BeginSentenceState i b) ∨ (∃ b, c = Call.NewHistories b)
    ∨ c = Call.GetFirstHyps := by
  unfold Search.preludeCalls Search.FilterTargetVocab Search.Encode Search.NewStates at hc
  simp only [List.mem_append, List.mem_cons, List.mem_map, List.mem_flatMap,
    List.mem_singleton, List.not_mem_nil, or_false] at hc
  rcases hc with ((h1 | h2) | h3) | h4
  · by_cases hf : srch.filter_ = true
    · left
      refine ⟨hf, ?_⟩
      simp only [hf, if_true, List.mem_append, List.mem_cons, List.mem_map,
        List.mem_singleton, List.not_mem_nil, or_false] at h1
      rcases h1 with (h | h) | ⟨i, _, h⟩
      · exact Or.inl h
      · exact Or.inr (Or.inl h)
      · exact Or.inr (Or.inr ⟨i, h.symm⟩)
    · simp [hf] at h1
  · obtain ⟨i, _, h⟩ := h2
    rcases h with h | h | h
    · exact Or.inr (Or.inl ⟨i, h⟩)
    · exact Or.inr (Or.inr (Or.inl ⟨i, h⟩))
    · exact Or.inr (Or.inr (Or.inr (Or.inl ⟨i, _, h⟩)))
  · obtain ⟨i, _, h⟩ := h3
    exact Or.inr (Or.inr (Or.inl ⟨i, h.symm⟩))
  · rcases h4 with h | h
    · exact Or.inr (Or.inr (Or.inr (Or.inr (Or.inl ⟨_, h⟩))))
    · exact Or.inr (Or.inr (Or.inr (Or.inr (Or.inr h))))

theorem mem_stepCalls (srch : Search) (s : StepRecord) (c : Call)
    (hc : c ∈ srch.stepCalls s) :
    (∃ i, i < srch.numScorers ∧ c = Call.Decode i s.beamSizesIn)
    ∨ c = Call.BestHyps s.prevHyps srch.filterIndices_ s.beamSizesSel
    ∨ c = Call.HistoriesAdd s.beams
    ∨ (s.hasSurvivors = true ∧ c = Call.AssembleBeamState 0 s.survivors) := by
  unfold Search.stepCalls at hc
  simp only [List.mem_append, List.mem_cons, List.mem_map, List.mem_range,
    List.mem_singleton, List.not_mem_nil, or_false] at hc
  rcases hc with (⟨i, hi, h⟩ | h | h) | h
  · exact Or.inl ⟨i, hi, h.symm⟩
  · exact Or.inr (Or.inl h)
  · exact Or.inr (Or.inr (Or.inl h))
  · by_cases hs : s.hasSurvivors = true
    · simp only [hs, if_true, List.mem_singleton] at h
      exact Or.inr (Or.inr (Or.inr ⟨hs, h⟩))
    · simp [hs] at h

theorem mem_cleanupCalls (srch : Search) (c : Call) (hc : c ∈ srch.CleanAfterTranslation) :
    ∃ i, i < srch.numScorers ∧ c = Call.CleanUpAfterSentence i := by
  unfold Search.CleanAfterTranslation at hc
  obtain ⟨i, hi, h⟩ := List.mem_map.mp hc
  exact ⟨i, List.mem_range.mp hi, h.symm⟩

theorem countP_isBestHyps_stepCalls (srch : Search) (s : StepRecord) :
    (srch.stepCalls s).countP Call.isBestHyps = 1 := by
  unfold Search.stepCalls
  rw [List.countP_append, List.countP_append]
  have h1 : ((List.range srch.numScorers).map
      (fun i => Call.Decode i s.beamSizesIn)).countP Call.isBestHyps = 0 := by
    rw [List.countP_eq_zero]
    intro c hc
    obtain ⟨i, _, rfl⟩ := List.mem_map.mp hc
    simp [Call.isBestHyps]
  rw [h1]
  by_cases h : s.hasSurvivors = true <;> simp [h, Call.isBestHyps, List.countP_cons]

theorem countP_isBestHyps_steps (srch : Search) (l : List StepRecord) :
    (l.flatMap srch.stepCalls).countP Call.isBestHyps = l.length := by
  induction l with
  | nil => simp
  | cons s t ih =>
    rw [List.flatMap_cons, List.countP_append, ih, countP_isBestHyps_stepCalls]
    simp [Nat.add_comm]

theorem countP_isBestHyps_prelude (srch : Search) (C : Collaborators) (sentences : Sentences) :
    (srch.preludeCalls C sentences).countP Call.isBestHyps = 0 := by
  rw [List.countP_eq_zero]
  intro c hc
  rcases mem_preludeCalls srch C sentences c hc with
    ⟨_, rfl | rfl | ⟨i, rfl⟩⟩ | ⟨i, rfl⟩ | ⟨i, rfl⟩ | ⟨i, b, rfl⟩ | ⟨b, rfl⟩ | rfl <;>
  simp [Call.isBestHyps]

theorem countP_isBestHyps_cleanup (srch : Search) :
    srch.CleanAfterTranslation.countP Call.isBestHyps = 0 := by
  rw [List.countP_eq_zero]
  intro c hc
  obtain ⟨i, _, rfl⟩ := mem_cleanupCalls srch c hc
  simp [Call.isBestHyps]

/-- The number of `BestHyps` selections in the call log is the number of step records. -/
theorem Translate_bestHyps_calls (srch : Search) (C : Collaborators) (sentences : Sentences) :
    (srch.Translate C sentences).2.calls.countP Call.isBestHyps
      = (srch.Translate C sentences).2.steps.length := by
  rw [(Translate_eq srch C sentences).2, List.countP_append, List.countP_append,
    countP_isBestHyps_prelude, countP_isBestHyps_steps, countP_isBestHyps_cleanup]
  simp

theorem stepRecord_dead_of_allEOS (srch : Search) (C : Collaborators) (t : Nat) (p : Beam)
    (b : List Nat)
    (h : ∀ r x, r < (srch.stepRecord C t p b).beamSizesSel.length →
      x ∈ C.BestHyps t p srch.filterIndices_ (srch.stepRecord C t p b).beamSizesSel r →
      x.GetWord = C.EOS_ID) :
    (srch.stepRecord C t p b).hasSurvivors = false := by
  rw [stepRecord_flag]
  unfold hasSurvivor
  rw [List.any_eq_false]
  intro bm hbm
  rw [Bool.not_eq_true, List.any_eq_false]
  intro x hx
  have hb : bm ∈ (List.range (srch.stepRecord C t p b).beamSizesSel.length).map
      (C.BestHyps t p srch.filterIndices_ (srch.stepRecord C t p b).beamSizesSel) := hbm
  obtain ⟨r, hr, rfl⟩ := List.mem_map.mp hb
  have := h r x (List.mem_range.mp hr) hx
  simp [this]

/-- C1: with `L = sentences.GetMaxLength()` and `3 * L` representable as a `size_t`,
`Search::Translate` executes exactly `min(3 * L, k)` decode steps, where `k` is the 1-based
index of the first step whose selected hypotheses contain no survivor, or `3 * L` if there
is no such step; every step makes exactly one `BestHyps` selection. It never runs more
than `3 * L` steps, runs no step when `L = 0`, and runs exactly one step when every
hypothesis selected at step 0 is EOS. -/
theorem Translate_step_count (srch : Search) (C : Collaborators) (sentences : Sentences)
    (hL : 3 * sentences.GetMaxLength < 18446744073709551616) :
    (srch.Translate C sentences).2.steps.length
        = min (3 * sentences.GetMaxLength)
            (firstDeadStep C.EOS_ID (srch.Translate C sentences).2.steps
              (3 * sentences.GetMaxLength))
    ∧ (srch.Translate C sentences).2.calls.countP Call.isBestHyps
        = (srch.Translate C sentences).2.steps.length
    ∧ (srch.Translate C sentences).2.steps.length ≤ 3 * sentences.GetMaxLength
    ∧ (sentences.GetMaxLength = 0 → (srch.Translate C sentences).2.steps.length = 0)
    ∧ (∀ s, (srch.Translate C sentences).2.steps.head? = some s →
        hasSurvivor C.EOS_ID s.beams = false →
        (srch.Translate C sentences).2.steps.length = 1)
    ∧ (0 < sentences.GetMaxLength →
        (∀ r x, r < sentences.size →
          x ∈ C.BestHyps 0 (C.GetFirstHyps sentences)
                (srch.Translate C sentences).1.filterIndices_
                (List.replicate sentences.size (srch.maxBeamSize_ % 4294967296)) r →
          x.GetWord = C.EOS_ID) →
        (srch.Translate C sentences).2.steps.length = 1) := by
  have hb : (3 * sentences.GetMaxLength) % 18446744073709551616 = 3 * sentences.GetMaxLength :=
    Nat.mod_eq_of_lt hL
  have hsteps := (Translate_eq srch C sentences).1
  rw [hb] at hsteps
  have hlen : (srch.Translate C sentences).2.steps.length
      = min (3 * sentences.GetMaxLength)
          (firstDeadStep C.EOS_ID (srch.Translate C sentences).2.steps
            (3 * sentences.GetMaxLength)) := by
    rw [hsteps]
    exact runSteps_length _ _ _ _ _ _
  have hle : (srch.Translate C sentences).2.steps.length ≤ 3 * sentences.GetMaxLength := by
    rw [hlen]; exact Nat.min_le_left _ _
  refine ⟨hlen, Translate_bestHyps_calls srch C sentences, hle, ?_, ?_, ?_⟩
  · intro h0
    rw [h0] at hle
    omega
  · intro s hs hdead
    cases hl : (srch.Translate C sentences).2.steps with
    | nil => rw [hl] at hs; simp at hs
    | cons a t =>
      rw [hl] at hs
      simp only [List.head?_cons, Option.some.injEq] at hs
      subst hs
      have h1 := hlen
      rw [hl, firstDeadStep_cons_dead _ _ _ _ hdead] at h1
      simp only [List.length_cons] at h1 ⊢
      omega
  · intro hpos hall
    obtain ⟨n, hn⟩ : ∃ n, 3 * sentences.GetMaxLength = n + 1 := ⟨3 * sentences.GetMaxLength - 1, by omega⟩
    rw [hn, Search.runSteps] at hsteps
    have hmax := (Translate_fst_fields srch C sentences).2.1
    have hsel : ((srch.Translate C sentences).1.stepRecord C 0 (C.GetFirstHyps sentences)
        (List.replicate sentences.size 1)).beamSizesSel
        = List.replicate sentences.size (srch.maxBeamSize_ % 4294967296) := by
      simp [Search.stepRecord, hmax]
    have hd := stepRecord_dead_of_allEOS (srch.Translate C sentences).1 C 0
      (C.GetFirstHyps sentences) (List.replicate sentences.size 1)
      (by
        rw [hsel]
        intro r x hr hx
        exact hall r x (by simpa using hr) hx)
    rw [hd] at hsteps
    rw [hsteps]
    simp

/-- Witness for C1: one sentence of length 3, beam width 1, a `BestHyps` that always
selects EOS. The bound is 9 and the loop ends after 1 step. -/
theorem Translate_step_count_witness :
    3 * oneSentence.GetMaxLength < 18446744073709551616
    ∧ 0 < oneSentence.GetMaxLength
    ∧ ((Search.mk 1 false 1 false []).Translate alwaysEOS oneSentence).2.steps.length = 1
    ∧ ((Search.mk 1 false 1 false []).Translate alwaysEOS oneSentence).2.steps.length
        ≤ 3 * oneSentence.GetMaxLength :=
  ⟨by decide, by decide,
    (Translate_step_count (Search.mk 1 false 1 false []) alwaysEOS oneSentence
      (by decide)).2.2.2.2.2 (by decide)
      (fun r x _ hx => by
        have hx' : x ∈ List.replicate
            ((List.replicate oneSentence.size (1 % 4294967296)).getD r 0)
            (⟨0, 0⟩ : Hypothesis) := hx
        rw [(List.mem_replicate.mp hx').2]
        rfl),
    (Translate_step_count (Search.mk 1 false 1 false []) alwaysEOS oneSentence
      (by decide)).2.2.1⟩

/-! ### Structure of the run -/

theorem stepRecord_fields (srch : Search) (C : Collaborators) (t : Nat) (p : Beam)
    (b : List Nat) :
    (srch.stepRecord C t p b).prevHyps = p
    ∧ (srch.stepRecord C t p b).beamSizesIn = b
    ∧ (srch.stepRecord C t p b).beamSizesSel
        = (if t = 0 then b.map (fun _ => srch.maxBeamSize_ % 4294967296) else b)
    ∧ (srch.stepRecord C t p b).beams
        = (List.range (srch.stepRecord C t p b).beamSizesSel.length).map
            (C.BestHyps t p srch.filterIndices_ (srch.stepRecord C t p b).beamSizesSel)
    ∧ (srch.stepRecord C t p b).survivors
        = ((srch.stepRecord C t p b).beams.map (rowSurvivors C.EOS_ID)).flatten
    ∧ (srch.stepRecord C t p b).beamSizesOut
        = (survivorLoop C.EOS_ID (srch.stepRecord C t p b).beams
            (srch.stepRecord C t p b).beamSizesSel.length
            (srch.stepRecord C t p b).beamSizesSel).2 :=
  ⟨rfl, rfl, rfl, rfl, rfl, rfl⟩

theorem runSteps_head (srch : Search) (C : Collaborators) (n t : Nat) (p : Beam)
    (b : List Nat) (s : StepRecord) (h : (srch.runSteps C n t p b)[0]? = some s) :
    s = srch.stepRecord C t p b := by
  cases n with
  | zero => simp [Search.runSteps] at h
  | succ n =>
    rw [Search.runSteps] at h
    simp only [List.getElem?_cons_zero, Option.some.injEq] at h
    exact h.symm

theorem runSteps_link (srch : Search) (C : Collaborators) (n t : Nat) (p : Beam)
    (b : List Nat) (i : Nat) (x y : StepRecord)
    (hx : (srch.runSteps C n t p b)[i]? = some x)
    (hy : (srch.runSteps C n t p b)[i + 1]? = some y) :
    x.hasSurvivors = true ∧ y = srch.stepRecord C (t + i + 1) x.survivors x.beamSizesOut := by
  induction n generalizing t p b i with
  | zero => simp [Search.runSteps] at hx
  | succ n ih =>
    rw [Search.runSteps] at hx hy
    simp only [List.getElem?_cons_succ] at hy
    by_cases hs : (srch.stepRecord C t p b).hasSurvivors = true
    · simp only [hs, if_true] at hx hy
      cases i with
      | zero =>
        simp only [List.getElem?_cons_zero, Option.some.injEq] at hx
        subst hx
        exact ⟨hs, runSteps_head _ _ _ _ _ _ _ hy⟩
      | succ j =>
        simp only [List.getElem?_cons_succ] at hx
        have := ih (t + 1) _ _ j hx hy
        have e : t + 1 + j + 1 = t + (j + 1) + 1 := by omega
        rw [e] at this
        exact this
    · simp [hs] at hy

theorem runSteps_consistent (srch : Search) (C : Collaborators) (n t : Nat) (p : Beam)
    (b : List Nat) (i : Nat) (x : StepRecord)
    (hx : (srch.runSteps C n t p b)[i]? = some x) :
    x = srch.stepRecord C (t + i) x.prevHyps x.beamSizesIn := by
  cases i with
  | zero =>
    have := runSteps_head _ _ _ _ _ _ _ hx
    rw [this]
    rfl
  | succ j =>
    have hj : j < (srch.runSteps C n t p b).length := by
      have := (List.getElem?_eq_some_iff.mp hx).1
      omega
    have hw : (srch.runSteps C n t p b)[j]? = some (srch.runSteps C n t p b)[j] :=
      List.getElem?_eq_getElem hj
    have := (runSteps_link _ _ _ _ _ _ _ _ _ hw hx).2
    rw [this]
    rfl

/-! ### One step under the `BestHyps` contract -/

theorem stepRecord_beams_getD (srch : Search) (C : Collaborators) (t : Nat) (p : Beam)
    (b : List Nat) (r : Nat) (hr : r < (srch.stepRecord C t p b).beamSizesSel.length) :
    (srch.stepRecord C t p b).beams.getD r []
      = C.BestHyps t p srch.filterIndices_ (srch.stepRecord C t p b).beamSizesSel r := by
  rw [(stepRecord_fields srch C t p b).2.2.2.1]
  rw [List.getD_eq_getElem _ _ (by simpa using hr)]
  simp

theorem stepRecord_beams_length (srch : Search) (C : Collaborators) (t : Nat) (p : Beam)
    (b : List Nat) :
    (srch.stepRecord C t p b).beams.length = (srch.stepRecord C t p b).beamSizesSel.length := by
  rw [(stepRecord_fields srch C t p b).2.2.2.1]
  simp

theorem stepRecord_out_length (srch : Search) (C : Collaborators) (t : Nat) (p : Beam)
    (b : List Nat) :
    (srch.stepRecord C t p b).beamSizesOut.length
      = (srch.stepRecord C t p b).beamSizesSel.length := by
  rw [(stepRecord_fields srch C t p b).2.2.2.2.2]
  exact survivorLoop_length _ _ _ _

theorem stepRecord_out_getD (srch : Search) (C : Collaborators) (hC : AtMostBeamSize C)
    (t : Nat) (p : Beam) (b : List Nat) (r : Nat)
    (hr : r < (srch.stepRecord C t p b).beamSizesSel.length)
    (hu : (srch.stepRecord C t p b).beamSizesSel.getD r 0 < 4294967296) :
    (srch.stepRecord C t p b).beamSizesOut.getD r 0
      = (srch.stepRecord C t p b).beamSizesSel.getD r 0
        - rowFinished C.EOS_ID ((srch.stepRecord C t p b).beams.getD r [])
    ∧ rowFinished C.EOS_ID ((srch.stepRecord C t p b).beams.getD r [])
        ≤ (srch.stepRecord C t p b).beamSizesSel.getD r 0
    ∧ ((srch.stepRecord C t p b).beams.getD r []).length
        ≤ (srch.stepRecord C t p b).beamSizesSel.getD r 0 := by
  have hlen : ((srch.stepRecord C t p b).beams.getD r []).length
      ≤ (srch.stepRecord C t p b).beamSizesSel.getD r 0 := by
    rw [stepRecord_beams_getD _ _ _ _ _ _ hr]
    exact hC _ _ _ _ _ hr
  have hfin : rowFinished C.EOS_ID ((srch.stepRecord C t p b).beams.getD r [])
      ≤ (srch.stepRecord C t p b).beamSizesSel.getD r 0 := by
    have := rowSurvivors_add_rowFinished C.EOS_ID ((srch.stepRecord C t p b).beams.getD r [])
    omega
  refine ⟨?_, hfin, hlen⟩
  rw [(stepRecord_fields srch C t p b).2.2.2.2.2]
  exact survivorLoop_getD _ _ _ _ _ hr hfin hu

theorem getD_lt_of_forall (l : List Nat) (r : Nat) (h : ∀ x ∈ l, x < 4294967296) :
    l.getD r 0 < 4294967296 := by
  by_cases hr : r < l.length
  · rw [List.getD_eq_getElem _ _ hr]
    exact h _ (List.getElem_mem _)
  · rw [List.getD_eq_default _ _ (Nat.le_of_not_lt hr)]
    decide

theorem stepRecord_out_uint (srch : Search) (C : Collaborators) (hC : AtMostBeamSize C)
    (t : Nat) (p : Beam) (b : List Nat)
    (hu : ∀ x ∈ (srch.stepRecord C t p b).beamSizesSel, x < 4294967296) :
    (RowwiseLE (srch.stepRecord C t p b).beamSizesSel (srch.stepRecord C t p b).beamSizesOut)
    ∧ ∀ x ∈ (srch.stepRecord C t p b).beamSizesOut, x < 4294967296 := by
  have hl := stepRecord_out_length srch C t p b
  have key : ∀ r, r < (srch.stepRecord C t p b).beamSizesOut.length →
      (srch.stepRecord C t p b).beamSizesOut.getD r 0
        ≤ (srch.stepRecord C t p b).beamSizesSel.getD r 0 := by
    intro r hr
    rw [(stepRecord_out_getD srch C hC t p b r (by omega) (getD_lt_of_forall _ _ hu)).1]
    exact Nat.sub_le _ _
  refine ⟨⟨hl, key⟩, fun x hx => ?_⟩
  obtain ⟨r, hr, rfl⟩ := List.getElem_of_mem hx
  have h1 := key r hr
  rw [List.getD_eq_getElem _ _ hr] at h1
  have h2 := getD_lt_of_forall _ r hu
  omega

theorem stepRecord_sel_uint (srch : Search) (C : Collaborators) (t : Nat) (p : Beam)
    (b : List Nat) (hb : t = 0 ∨ ∀ x ∈ b, x < 4294967296) :
    ∀ x ∈ (srch.stepRecord C t p b).beamSizesSel, x < 4294967296 := by
  rw [(stepRecord_fields srch C t p b).2.2.1]
  by_cases h0 : t = 0
  · simp only [h0, if_true]
    intro x hx
    obtain ⟨_, _, rfl⟩ := List.mem_map.mp hx
    exact Nat.mod_lt _ (by decide)
  · simp only [h0, if_false]
    rcases hb with h | h
    · exact absurd h h0
    · exact h

/-! ### C3: the values of `beamSizes` over the loop -/

theorem RowwiseLE_refl (a : List Nat) : RowwiseLE a a := ⟨rfl, fun _ _ => Nat.le_refl _⟩

theorem runSteps_chain (srch : Search) (C : Collaborators) (hC : AtMostBeamSize C)
    (n t : Nat) (p : Beam) (b : List Nat) (ht : t ≠ 0) (hb : ∀ x ∈ b, x < 4294967296) :
    List.Chain RowwiseLE b
      ((srch.runSteps C n t p b).flatMap (fun s => [s.beamSizesSel, s.beamSizesOut])) := by
  induction n generalizing t p b with
  | zero => simp [Search.runSteps]
  | succ n ih =>
    rw [Search.runSteps]
    have hsel : (srch.stepRecord C t p b).beamSizesSel = b := by
      rw [(stepRecord_fields srch C t p b).2.2.1, if_neg ht]
    have hu : ∀ x ∈ (srch.stepRecord C t p b).beamSizesSel, x < 4294967296 := by
      rw [hsel]; exact hb
    obtain ⟨hle, hout⟩ := stepRecord_out_uint srch C hC t p b hu
    simp only [List.flatMap_cons, List.cons_append, List.nil_append, List.chain_cons]
    refine ⟨by rw [hsel]; exact RowwiseLE_refl b, hle, ?_⟩
    by_cases hs : (srch.stepRecord C t p b).hasSurvivors = true
    · simp only [hs, if_true]
      exact ih (t + 1) _ _ (by omega) hout
    · simp [hs]

theorem runSteps_chain_zero (srch : Search) (C : Collaborators) (hC : AtMostBeamSize C)
    (n : Nat) (p : Beam) (b : List Nat) :
    List.Chain' RowwiseLE
      ((srch.runSteps C n 0 p b).flatMap (fun s => [s.beamSizesSel, s.beamSizesOut])) := by
  cases n with
  | zero => simp [Search.runSteps]
  | succ n =>
    rw [Search.runSteps]
    have hu := stepRecord_sel_uint srch C 0 p b (Or.inl rfl)
    obtain ⟨hle, hout⟩ := stepRecord_out_uint srch C hC 0 p b hu
    simp only [List.flatMap_cons, List.cons_append, List.nil_append]
    show List.Chain RowwiseLE _ _
    rw [List.chain_cons]
    refine ⟨hle, ?_⟩
    by_cases hs : (srch.stepRecord C 0 p b).hasSurvivors = true
    · simp only [hs, if_true]
      exact runSteps_chain srch C hC n 1 _ _ (by omega) hout
    · simp [hs]

theorem runSteps_uint (srch : Search) (C : Collaborators) (hC : AtMostBeamSize C)
    (n t : Nat) (p : Beam) (b : List Nat) (hb : t = 0 ∨ ∀ x ∈ b, x < 4294967296)
    (i : Nat) (s : StepRecord) (hs : (srch.runSteps C n t p b)[i]? = some s) :
    ∀ x ∈ s.beamSizesSel, x < 4294967296 := by
  induction i generalizing s with
  | zero =>
    rw [runSteps_head _ _ _ _ _ _ _ hs]
    exact stepRecord_sel_uint srch C t p b hb
  | succ j ih =>
    have hj : j < (srch.runSteps C n t p b).length := by
      have := (List.getElem?_eq_some_iff.mp hs).1
      omega
    have hw : (srch.runSteps C n t p b)[j]? = some (srch.runSteps C n t p b)[j] :=
      List.getElem?_eq_getElem hj
    have hprev := ih _ hw
    have hcons := runSteps_consistent _ _ _ _ _ _ _ _ hw
    rw [hcons] at hprev
    have hout := (stepRecord_out_uint srch C hC _ _ _ hprev).2
    rw [← hcons] at hout
    rw [(runSteps_link _ _ _ _ _ _ _ _ _ hw hs).2]
    exact stepRecord_sel_uint srch C _ _ _ (Or.inr hout)

theorem Translate_steps_head (srch : Search) (C : Collaborators) (sentences : Sentences)
    (s : StepRecord) (hs : (srch.Translate C sentences).2.steps[0]? = some s) :
    s.prevHyps = C.GetFirstHyps sentences
    ∧ s.beamSizesIn = List.replicate sentences.size 1
    ∧ s.beamSizesSel = List.replicate sentences.size (srch.maxBeamSize_ % 4294967296) := by
  rw [(Translate_eq srch C sentences).1] at hs
  rw [runSteps_head _ _ _ _ _ _ _ hs]
  refine ⟨rfl, rfl, ?_⟩
  rw [(stepRecord_fields _ _ _ _ _).2.2.1, (Translate_fst_fields srch C sentences).2.1]
  simp

/-- C3 as amended: when `BestHyps` returns at most `beamSizes[row]` hypotheses per row,
the value of `beamSizes` is 1 per row before step 0, every row is set to `maxBeamSize_`
(stored in a `uint`) by the reset of step 0, and from that reset on, through every step
executed, the value keeps its rows and is non-increasing in every row. Every value taken
is a natural number below `2^32`: no entry is negative and none wraps. -/
theorem beamSizes_nonincreasing_after_reset (srch : Search) (C : Collaborators)
    (sentences : Sentences) (hC : AtMostBeamSize C) :
    (beamSizesTimeline (List.replicate sentences.size 1)
        (srch.Translate C sentences).2.steps).head?
      = some (List.replicate sentences.size 1)
    ∧ (∀ s, (srch.Translate C sentences).2.steps[0]? = some s →
        s.beamSizesSel = List.replicate sentences.size (srch.maxBeamSize_ % 4294967296))
    ∧ List.Chain' RowwiseLE
        (beamSizesTimeline (List.replicate sentences.size 1)
          (srch.Translate C sentences).2.steps).tail
    ∧ (∀ bs ∈ beamSizesTimeline (List.replicate sentences.size 1)
          (srch.Translate C sentences).2.steps,
        ∀ x ∈ bs, 0 ≤ x ∧ x < 4294967296) := by
  refine ⟨rfl, fun s hs => (Translate_steps_head srch C sentences s hs).2.2, ?_, ?_⟩
  · show List.Chain' RowwiseLE
      ((srch.Translate C sentences).2.steps.flatMap (fun s => [s.beamSizesSel, s.beamSizesOut]))
    rw [(Translate_eq srch C sentences).1]
    exact runSteps_chain_zero _ C hC _ _ _
  · intro bs hbs x hx
    refine ⟨Nat.zero_le x, ?_⟩
    unfold beamSizesTimeline at hbs
    rcases List.mem_cons.mp hbs with h | h
    · rw [h] at hx
      rw [(List.mem_replicate.mp hx).2]
      decide
    · obtain ⟨s, hs, hmem⟩ := List.mem_flatMap.mp h
      obtain ⟨i, hi, hsi⟩ := List.getElem_of_mem hs
      have hget2 : (srch.Translate C sentences).2.steps[i]? = some s := by
        rw [List.getElem?_eq_getElem hi, hsi]
      rw [(Translate_eq srch C sentences).1] at hget2
      have hsel := runSteps_uint _ C hC _ _ _ _ (Or.inl rfl) i _ hget2
      have hcons := runSteps_consistent _ _ _ _ _ _ _ _ hget2
      simp only [List.mem_cons, List.mem_singleton, List.not_mem_nil, or_false] at hmem
      rcases hmem with h1 | h1
      · rw [h1] at hx
        exact hsel x hx
      · rw [h1] at hx
        rw [hcons] at hsel hx
        exact (stepRecord_out_uint _ C hC _ _ _ hsel).2 x hx

theorem mixedEOS_atMost : AtMostBeamSize mixedEOS := by
  intro t p f b r _
  simp [mixedEOS]

/-- Witness for C3 as amended: two sentences, beam width 2, a `BestHyps` within its
contract that finishes one hypothesis per row from step 1 on. -/
theorem beamSizes_nonincreasing_after_reset_witness :
    AtMostBeamSize mixedEOS
    ∧ beamSizesTimeline (List.replicate twoSentences.size 1)
          ((Search.mk 2 true 2 false []).Translate mixedEOS twoSentences).2.steps
        = [[1, 1], [2, 2], [2, 2], [2, 2], [1, 1], [1, 1], [0, 0]]
    ∧ List.Chain' RowwiseLE
        (beamSizesTimeline (List.replicate twoSentences.size 1)
          ((Search.mk 2 true 2 false []).Translate mixedEOS twoSentences).2.steps).tail :=
  ⟨mixedEOS_atMost, by decide,
    (beamSizes_nonincreasing_after_reset (Search.mk 2 true 2 false []) mixedEOS twoSentences
      mixedEOS_atMost).2.2.1⟩

/-- C3 fails as stated. With one sentence, beam width 2 and a `BestHyps` that returns
exactly `beamSizes[row]` unfinished hypotheses, row 0 goes from its initial value 1 to 2 at
the reset of step 0. With beam width 1 and a `BestHyps` that returns two finished
hypotheses for a row of width 1, the second decrement wraps and row 0 goes from 1 to
`2^32 - 1`. -/
theorem beamSizes_not_nonincreasing :
    (beamSizesTimeline (List.replicate shortSentence.size 1)
          ((Search.mk 1 false 2 false []).Translate neverEOS shortSentence).2.steps
        = [[1], [2], [2], [2], [2], [2], [2]]
      ∧ ¬ List.Chain' RowwiseLE
          (beamSizesTimeline (List.replicate shortSentence.size 1)
            ((Search.mk 1 false 2 false []).Translate neverEOS shortSentence).2.steps))
    ∧ (beamSizesTimeline (List.replicate shortSentence.size 1)
          ((Search.mk 1 false 1 false []).Translate overfullEOS shortSentence).2.steps
        = [[1], [1], [4294967295]]
      ∧ ¬ List.Chain' RowwiseLE
          (beamSizesTimeline (List.replicate shortSentence.size 1)
            ((Search.mk 1 false 1 false []).Translate overfullEOS shortSentence).2.steps)) := by
  refine ⟨⟨by decide, ?_⟩, ⟨by decide, ?_⟩⟩
  · have e : beamSizesTimeline (List.replicate shortSentence.size 1)
          ((Search.mk 1 false 2 false []).Translate neverEOS shortSentence).2.steps
        = [[1], [2], [2], [2], [2], [2], [2]] := by decide
    rw [e]
    intro h
    exact absurd (List.Chain'.rel_head h) (by decide)
  · have e : beamSizesTimeline (List.replicate shortSentence.size 1)
          ((Search.mk 1 false 1 false []).Translate overfullEOS shortSentence).2.steps
        = [[1], [1], [4294967295]] := by decide
    rw [e]
    intro h
    exact absurd (List.Chain'.rel_head (List.Chain'.tail h)) (by decide)

/-! ### C10: `prevHyps` is grouped by row according to `beamSizes` -/

theorem atMost_of_exactly (C : Collaborators) (hE : ExactlyBeamSize C) : AtMostBeamSize C :=
  fun t p f b r hr => Nat.le_of_eq (hE t p f b r hr)

theorem stepRecord_out_exact (srch : Search) (C : Collaborators) (hE : ExactlyBeamSize C)
    (t : Nat) (p : Beam) (b : List Nat)
    (hu : ∀ x ∈ (srch.stepRecord C t p b).beamSizesSel, x < 4294967296) :
    (srch.stepRecord C t p b).beamSizesOut
      = (srch.stepRecord C t p b).beams.map (fun bm => (rowSurvivors C.EOS_ID bm).length) := by
  have hl := stepRecord_out_length srch C t p b
  have hbl := stepRecord_beams_length srch C t p b
  apply List.ext_getElem
  · rw [hl, List.length_map, hbl]
  · intro r h1 h2
    have hr : r < (srch.stepRecord C t p b).beamSizesSel.length := by omega
    have hrb : r < (srch.stepRecord C t p b).beams.length := by omega
    obtain ⟨ho, _, _⟩ := stepRecord_out_getD srch C (atMost_of_exactly C hE) t p b r hr
      (getD_lt_of_forall _ _ hu)
    have hex : ((srch.stepRecord C t p b).beams.getD r []).length
        = (srch.stepRecord C t p b).beamSizesSel.getD r 0 := by
      rw [stepRecord_beams_getD _ _ _ _ _ _ hr]
      exact hE _ _ _ _ _ hr
    have hsum := rowSurvivors_add_rowFinished C.EOS_ID
      ((srch.stepRecord C t p b).beams.getD r [])
    rw [List.getD_eq_getElem _ _ h1] at ho
    rw [List.getD_eq_getElem _ _ hrb] at hex hsum ho
    rw [List.getElem_map, ho]
    omega

/-- C10: if `Histories.GetFirstHyps` returns one seed hypothesis per sentence and
`BestHyps` returns for every row exactly `beamSizes[row]` hypotheses, then at the start of
every decode step of `Search::Translate` the length of `prevHyps` is the sum of
`beamSizes` over all rows, and from step 1 on `prevHyps` is the concatenation in row order
of the survivors of each row of the previous selection, the block of row `r` having length
`beamSizes[r]`. If `BestHyps` returns at most `beamSizes[row]` hypotheses per row, the
number of survivors of row `r` is at most the updated `beamSizes[r]`. -/
theorem prevHyps_row_blocks (srch : Search) (C : Collaborators) (sentences : Sentences) :
    ((C.GetFirstHyps sentences).length = sentences.size → ExactlyBeamSize C →
      (∀ (i : Nat) (s : StepRecord), (srch.Translate C sentences).2.steps[i]? = some s →
        s.prevHyps.length = s.beamSizesIn.sum)
      ∧ (∀ (i : Nat) (x y : StepRecord), (srch.Translate C sentences).2.steps[i]? = some x →
          (srch.Translate C sentences).2.steps[i + 1]? = some y →
          y.prevHyps = (x.beams.map (rowSurvivors C.EOS_ID)).flatten
          ∧ y.beamSizesIn = x.beams.map (fun bm => (rowSurvivors C.EOS_ID bm).length)))
    ∧ (AtMostBeamSize C →
        ∀ (i : Nat) (s : StepRecord) (r : Nat),
          (srch.Translate C sentences).2.steps[i]? = some s → r < s.beams.length →
          (rowSurvivors C.EOS_ID (s.beams.getD r [])).length ≤ s.beamSizesOut.getD r 0) := by
  have hsteps := (Translate_eq srch C sentences).1
  constructor
  · intro hfirst hE
    have hC := atMost_of_exactly C hE
    have hlink : ∀ (i : Nat) (x y : StepRecord), (srch.Translate C sentences).2.steps[i]? = some x →
        (srch.Translate C sentences).2.steps[i + 1]? = some y →
        y.prevHyps = (x.beams.map (rowSurvivors C.EOS_ID)).flatten
        ∧ y.beamSizesIn = x.beams.map (fun bm => (rowSurvivors C.EOS_ID bm).length) := by
      intro i x y hx hy
      rw [hsteps] at hx hy
      have hu := runSteps_uint _ C hC _ _ _ _ (Or.inl rfl) i x hx
      have hcons := runSteps_consistent _ _ _ _ _ _ _ _ hx
      have hy2 := (runSteps_link _ _ _ _ _ _ _ _ _ hx hy).2
      have h1 : y.prevHyps = x.survivors := by rw [hy2]; rfl
      have h2 : y.beamSizesIn = x.beamSizesOut := by rw [hy2]; rfl
      rw [h1, h2]
      rw [hcons] at hu ⊢
      exact ⟨rfl, stepRecord_out_exact _ C hE _ _ _ hu⟩
    refine ⟨fun i s hs => ?_, hlink⟩
    cases i with
    | zero =>
      obtain ⟨h1, h2, _⟩ := Translate_steps_head srch C sentences s hs
      rw [h1, h2, hfirst]
      simp
    | succ j =>
      have hj : j < (srch.Translate C sentences).2.steps.length := by
        have := (List.getElem?_eq_some_iff.mp hs).1
        omega
      obtain ⟨h1, h2⟩ := hlink j _ s (List.getElem?_eq_getElem hj) hs
      rw [h1, h2, List.length_flatten, List.map_map]
      rfl
  · intro hC i s r hs hr
    rw [hsteps] at hs
    have hu := runSteps_uint _ C hC _ _ _ _ (Or.inl rfl) i s hs
    have hcons := runSteps_consistent _ _ _ _ _ _ _ _ hs
    rw [hcons] at hu hr ⊢
    rw [stepRecord_beams_length] at hr
    obtain ⟨ho, _, hlen⟩ := stepRecord_out_getD _ C hC _ _ _ r hr (getD_lt_of_forall _ _ hu)
    have hsum := rowSurvivors_add_rowFinished C.EOS_ID
      (((srch.Translate C sentences).1.stepRecord C (0 + i) s.prevHyps s.beamSizesIn).beams.getD
        r [])
    rw [ho]
    omega


theorem mixedEOS_exactly : ExactlyBeamSize mixedEOS := by
  intro t p f b r _
  simp [mixedEOS]

/-- Witness for C10: two sentences, beam width 2, a `BestHyps` that returns exactly
`beamSizes[row]` hypotheses per row and finishes one per row from step 1 on. At the start
of step 1 `prevHyps` holds 4 hypotheses for `beamSizes = [2, 2]`; after step 1 each row has
one survivor and `beamSizes = [1, 1]`. -/
theorem prevHyps_row_blocks_witness :
    (mixedEOS.GetFirstHyps twoSentences).length = twoSentences.size
    ∧ ExactlyBeamSize mixedEOS
    ∧ AtMostBeamSize mixedEOS
    ∧ ((Search.mk 2 false 2 false []).Translate mixedEOS twoSentences).2.steps[1]?
        = some ((Search.mk 2 false 2 false []).stepRecord mixedEOS 1
            [⟨5, 0⟩, ⟨5, 1⟩, ⟨5, 0⟩, ⟨5, 1⟩] [2, 2])
    ∧ ((Search.mk 2 false 2 false []).stepRecord mixedEOS 1
          [⟨5, 0⟩, ⟨5, 1⟩, ⟨5, 0⟩, ⟨5, 1⟩] [2, 2]).prevHyps.length
        = ((Search.mk 2 false 2 false []).stepRecord mixedEOS 1
          [⟨5, 0⟩, ⟨5, 1⟩, ⟨5, 0⟩, ⟨5, 1⟩] [2, 2]).beamSizesIn.sum
    ∧ (rowSurvivors mixedEOS.EOS_ID
          (((Search.mk 2 false 2 false []).stepRecord mixedEOS 1
            [⟨5, 0⟩, ⟨5, 1⟩, ⟨5, 0⟩, ⟨5, 1⟩] [2, 2]).beams.getD 0 [])).length
        ≤ ((Search.mk 2 false 2 false []).stepRecord mixedEOS 1
            [⟨5, 0⟩, ⟨5, 1⟩, ⟨5, 0⟩, ⟨5, 1⟩] [2, 2]).beamSizesOut.getD 0 0 :=
  ⟨by decide, mixedEOS_exactly, mixedEOS_atMost, by decide,
    ((prevHyps_row_blocks (Search.mk 2 false 2 false []) mixedEOS twoSentences).1
      (by decide) mixedEOS_exactly).1 1 _ (by decide),
    (prevHyps_row_blocks (Search.mk 2 false 2 false []) mixedEOS twoSentences).2
      mixedEOS_atMost 1 _ 0 (by decide) (by decide)⟩

/-! ### C9: the `beamSizes` seen by `Decode` and by `BestHyps` -/

/-- C9: the call log of `Search::Translate` is the prelude, then for every executed step
the `Decode` of every scorer in ensemble order, all with the value `beamSizes` has on
entry of the step, then the `BestHyps` selection with the value after the reset, then
`Histories::Add` (and `AssembleBeamState` when there are survivors), and at the end the
cleanup. At step 0 the value on entry is 1 for every row and the value `BestHyps` sees is
`maxBeamSize_` for every row (as stored in a `uint`, which is `maxBeamSize_` itself when
it is below `2^32`). At every later step `Decode` and `BestHyps` both see the value the
previous step's `CalcBeam` left. -/
theorem Translate_beamSizes_seen (srch : Search) (C : Collaborators) (sentences : Sentences) :
    (srch.Translate C sentences).2.calls
        = srch.preludeCalls C sentences
          ++ (srch.Translate C sentences).2.steps.flatMap
              (fun s =>
                (List.range srch.numScorers).map (fun i => Call.Decode i s.beamSizesIn)
                ++ [Call.BestHyps s.prevHyps (srch.Translate C sentences).1.filterIndices_
                      s.beamSizesSel,
                    Call.HistoriesAdd s.beams]
                ++ (if s.hasSurvivors then [Call.AssembleBeamState 0 s.survivors] else []))
          ++ (List.range srch.numScorers).map Call.CleanUpAfterSentence
    ∧ (∀ s : StepRecord, (srch.Translate C sentences).2.steps[0]? = some s →
        s.beamSizesIn = List.replicate sentences.size 1
        ∧ s.beamSizesSel = List.replicate sentences.size (srch.maxBeamSize_ % 4294967296))
    ∧ (srch.maxBeamSize_ < 4294967296 →
        ∀ s : StepRecord, (srch.Translate C sentences).2.steps[0]? = some s →
          s.beamSizesSel = List.replicate sentences.size srch.maxBeamSize_)
    ∧ (∀ (i : Nat) (x y : StepRecord), (srch.Translate C sentences).2.steps[i]? = some x →
        (srch.Translate C sentences).2.steps[i + 1]? = some y →
        y.beamSizesIn = x.beamSizesOut ∧ y.beamSizesSel = x.beamSizesOut) := by
  refine ⟨?_, fun s hs => (Translate_steps_head srch C sentences s hs).2, ?_, ?_⟩
  · have h := (Translate_eq srch C sentences).2
    have hn := (Translate_fst_fields srch C sentences).1
    unfold Search.stepCalls Search.CleanAfterTranslation at h
    rw [hn] at h
    exact h
  · intro hlt s hs
    rw [(Translate_steps_head srch C sentences s hs).2.2, Nat.mod_eq_of_lt hlt]
  · intro i x y hx hy
    rw [(Translate_eq srch C sentences).1] at hx hy
    have hy2 := (runSteps_link _ _ _ _ _ _ _ _ _ hx hy).2
    rw [hy2]
    refine ⟨rfl, ?_⟩
    rw [(stepRecord_fields _ _ _ _ _).2.2.1, if_neg (by omega)]

/-- Witness for C9: two scorers, two sentences, beam width 2. Step 0 is entered with
`beamSizes = [1, 1]` and selects with `[2, 2]`; step 2 is entered with the `[1, 1]` that
step 1 left. -/
theorem Translate_beamSizes_seen_witness :
    (2 : Nat) < 4294967296
    ∧ ((Search.mk 2 false 2 false []).Translate mixedEOS twoSentences).2.steps[0]?
        = some ((Search.mk 2 false 2 false []).stepRecord mixedEOS 0
            [⟨0, 0⟩, ⟨0, 0⟩] [1, 1])
    ∧ ((Search.mk 2 false 2 false []).stepRecord mixedEOS 0
          [⟨0, 0⟩, ⟨0, 0⟩] [1, 1]).beamSizesSel
        = List.replicate twoSentences.size 2
    ∧ ((Search.mk 2 false 2 false []).Translate mixedEOS twoSentences).2.calls.take 6
        = [Call.Encode 0, Call.NewState 0, Call.BeginSentenceState 0 2,
            Call.Encode 1, Call.NewState 1, Call.BeginSentenceState 1 2]
    ∧ (((Search.mk 2 false 2 false []).Translate mixedEOS twoSentences).2.calls.drop 10).take 4
        = [Call.Decode 0 [1, 1], Call.Decode 1 [1, 1],
            Call.BestHyps [⟨0, 0⟩, ⟨0, 0⟩] [] [2, 2],
            Call.HistoriesAdd [[⟨5, 0⟩, ⟨5, 1⟩], [⟨5, 0⟩, ⟨5, 1⟩]]] :=
  ⟨by decide, by decide,
    (Translate_beamSizes_seen (Search.mk 2 false 2 false []) mixedEOS twoSentences).2.2.1
      (by decide) _ (by decide),
    by decide, by decide⟩

/-! ### C4: the cleanup after the loop -/

theorem not_isCleanUp_of_mem_steps (srch : Search) (l : List StepRecord) (c : Call)
    (hc : c ∈ l.flatMap srch.stepCalls) : c.isCleanUp = false := by
  obtain ⟨s, _, hs⟩ := List.mem_flatMap.mp hc
  rcases mem_stepCalls srch s c hs with ⟨i, _, rfl⟩ | rfl | rfl | ⟨_, rfl⟩ <;> rfl

theorem not_isCleanUp_of_mem_prelude (srch : Search) (C : Collaborators)
    (sentences : Sentences) (c : Call) (hc : c ∈ srch.preludeCalls C sentences) :
    c.isCleanUp = false := by
  rcases mem_preludeCalls srch C sentences c hc with
    ⟨_, rfl | rfl | ⟨i, rfl⟩⟩ | ⟨i, rfl⟩ | ⟨i, rfl⟩ | ⟨i, b, rfl⟩ | ⟨b, rfl⟩ | rfl <;> rfl

theorem count_cleanup (n i : Nat) (hi : i < n) :
    ((List.range n).map Call.CleanUpAfterSentence).count (Call.CleanUpAfterSentence i) = 1 := by
  apply List.count_eq_one_of_mem
  · apply List.Nodup.map
    · intro a b hab
      exact Call.CleanUpAfterSentence.inj hab
    · exact List.nodup_range n
  · exact List.mem_map.mpr ⟨i, List.mem_range.mpr hi, rfl⟩

/-- C4: on every exit path of the decode loop (bound reached, zero iterations, or break
after a step without survivors) the call log of `Search::Translate` ends with
`CleanUpAfterSentence` on scorer 0, 1, ..., in ensemble order, and nothing before that
suffix is a cleanup call: every `Decode`, `BestHyps`, `Histories::Add` and
`AssembleBeamState` call precedes it, and each scorer of the ensemble is cleaned up
exactly once. -/
theorem Translate_cleanup_once (srch : Search) (C : Collaborators) (sentences : Sentences) :
    (srch.Translate C sentences).2.calls
        = (srch.preludeCalls C sentences
            ++ (srch.Translate C sentences).2.steps.flatMap
                (srch.Translate C sentences).1.stepCalls)
          ++ (List.range srch.numScorers).map Call.CleanUpAfterSentence
    ∧ (∀ c ∈ srch.preludeCalls C sentences
            ++ (srch.Translate C sentences).2.steps.flatMap
                (srch.Translate C sentences).1.stepCalls,
        c.isCleanUp = false)
    ∧ (∀ i, i < srch.numScorers →
        (srch.Translate C sentences).2.calls.count (Call.CleanUpAfterSentence i) = 1) := by
  have hcalls : (srch.Translate C sentences).2.calls
        = (srch.preludeCalls C sentences
            ++ (srch.Translate C sentences).2.steps.flatMap
                (srch.Translate C sentences).1.stepCalls)
          ++ (List.range srch.numScorers).map Call.CleanUpAfterSentence :=
    (Translate_eq srch C sentences).2
  have hpre : ∀ c ∈ srch.preludeCalls C sentences
            ++ (srch.Translate C sentences).2.steps.flatMap
                (srch.Translate C sentences).1.stepCalls,
        c.isCleanUp = false := by
    intro c hc
    rcases List.mem_append.mp hc with h | h
    · exact not_isCleanUp_of_mem_prelude srch C sentences c h
    · exact not_isCleanUp_of_mem_steps _ _ c h
  refine ⟨hcalls, hpre, fun i hi => ?_⟩
  rw [hcalls, List.count_append, count_cleanup _ _ hi]
  have : (srch.preludeCalls C sentences
            ++ (srch.Translate C sentences).2.steps.flatMap
                (srch.Translate C sentences).1.stepCalls).count
      (Call.CleanUpAfterSentence i) = 0 := by
    rw [List.count_eq_zero]
    intro hmem
    have := hpre _ hmem
    simp [Call.isCleanUp] at this
  rw [this]

/-- Witness for C4 on the three exit paths: break after the first step (a scorer that
always selects EOS), bound of 3 steps reached (a scorer that never selects EOS), and an
empty batch, for which the loop body never runs. -/
theorem Translate_cleanup_once_witness :
    (((0 : Nat) < 1
      ∧ ((Search.mk 1 false 1 false []).Translate alwaysEOS oneSentence).2.steps.length = 1
      ∧ ((Search.mk 1 false 1 false []).Translate alwaysEOS oneSentence).2.calls.count
          (Call.CleanUpAfterSentence 0) = 1)
    ∧ ((1 : Nat) < 2
      ∧ ((Search.mk 2 false 1 false []).Translate neverEOS shortSentence).2.steps.length = 3
      ∧ ((Search.mk 2 false 1 false []).Translate neverEOS shortSentence).2.calls.count
          (Call.CleanUpAfterSentence 1) = 1))
    ∧ ((0 : Nat) < 1
      ∧ ((Search.mk 1 false 1 false []).Translate neverEOS ⟨[]⟩).2.steps.length = 0
      ∧ ((Search.mk 1 false 1 false []).Translate neverEOS ⟨[]⟩).2.calls.count
          (Call.CleanUpAfterSentence 0) = 1) :=
  ⟨⟨⟨by decide, by decide,
      (Translate_cleanup_once (Search.mk 1 false 1 false []) alwaysEOS oneSentence).2.2 0
        (by decide)⟩,
    ⟨by decide, by decide,
      (Translate_cleanup_once (Search.mk 2 false 1 false []) neverEOS shortSentence).2.2 1
        (by decide)⟩⟩,
    ⟨by decide, by decide,
      (Translate_cleanup_once (Search.mk 1 false 1 false []) neverEOS ⟨[]⟩).2.2 0
        (by decide)⟩⟩

/-! ### C8: which scorer states are reassembled -/

/-- In every run only `scorers_[0]` receives `AssembleBeamState`. -/
theorem Translate_assemble_only_first (srch : Search) (C : Collaborators)
    (sentences : Sentences) (i : Nat) (hi : i ≠ 0) :
    ∀ c ∈ (srch.Translate C sentences).2.calls, c.isAssembleOf i = false := by
  intro c hc
  rw [(Translate_eq srch C sentences).2] at hc
  rcases List.mem_append.mp hc with h | h
  · rcases List.mem_append.mp h with h | h
    · rcases mem_preludeCalls srch C sentences c h with
        ⟨_, rfl | rfl | ⟨i, rfl⟩⟩ | ⟨i, rfl⟩ | ⟨i, rfl⟩ | ⟨i, b, rfl⟩ | ⟨b, rfl⟩ | rfl <;> rfl
    · obtain ⟨s, _, hs⟩ := List.mem_flatMap.mp h
      rcases mem_stepCalls _ s c hs with ⟨j, _, rfl⟩ | rfl | rfl | ⟨_, rfl⟩
      · rfl
      · rfl
      · rfl
      · simp [Call.isAssembleOf]
        exact fun e => hi e.symm
  · obtain ⟨j, _, rfl⟩ := mem_cleanupCalls srch c h
    rfl

/-- C8 fails on an ensemble of two scorers: with one sentence of length 1, beam width 1
and a `BestHyps` that never selects EOS, all 3 steps leave a survivor, scorer 0 is
reassembled 3 times and scorer 1 never, although scorer 1 decodes at every step. -/
theorem Translate_second_scorer_not_reassembled :
    (((Search.mk 2 false 1 false []).Translate neverEOS shortSentence).2.steps.map
        (fun s => s.hasSurvivors)) = [true, true, true]
    ∧ ((Search.mk 2 false 1 false []).Translate neverEOS shortSentence).2.calls.countP
        (Call.isAssembleOf 0) = 3
    ∧ ((Search.mk 2 false 1 false []).Translate neverEOS shortSentence).2.calls.countP
        (Call.isAssembleOf 1) = 0
    ∧ ((Search.mk 2 false 1 false []).Translate neverEOS shortSentence).2.calls.count
        (Call.Decode 1 [1]) = 3
    ∧ ((Search.mk 2 false 1 false []).Translate neverEOS shortSentence).2.calls.drop 10
        = [Call.Decode 0 [1], Call.Decode 1 [1], Call.BestHyps [⟨0, 0⟩] [] [1],
            Call.HistoriesAdd [[⟨5, 0⟩]], Call.AssembleBeamState 0 [⟨5, 0⟩],
            Call.Decode 0 [1], Call.Decode 1 [1], Call.BestHyps [⟨5, 0⟩] [] [1],
            Call.HistoriesAdd [[⟨5, 0⟩]], Call.AssembleBeamState 0 [⟨5, 0⟩],
            Call.Decode 0 [1], Call.Decode 1 [1], Call.BestHyps [⟨5, 0⟩] [] [1],
            Call.HistoriesAdd [[⟨5, 0⟩]], Call.AssembleBeamState 0 [⟨5, 0⟩],
            Call.CleanUpAfterSentence 0, Call.CleanUpAfterSentence 1] := by
  refine ⟨by decide, by decide, by decide, by decide, by decide⟩

/-! ### C5: the vocabulary filter -/

theorem mem_setInsert (w x : Word) (l : Words) : x ∈ setInsert w l ↔ x = w ∨ x ∈ l := by
  induction l with
  | nil => simp [setInsert]
  | cons a t ih =>
    unfold setInsert
    by_cases h1 : w < a
    · simp [h1]
    · by_cases h2 : w = a
      · subst h2
        simp
      · simp only [h1, h2, if_false, List.mem_cons, ih]
        constructor
        · rintro (h | h | h)
          · exact Or.inr (Or.inl h)
          · exact Or.inl h
          · exact Or.inr (Or.inr h)
        · rintro (h | h | h)
          · exact Or.inr (Or.inl h)
          · exact Or.inl h
          · exact Or.inr (Or.inr h)

theorem sorted_setInsert (w : Word) (l : Words) (hl : l.Sorted (· < ·)) :
    (setInsert w l).Sorted (· < ·) := by
  induction l with
  | nil => simp [setInsert]
  | cons a t ih =>
    unfold setInsert
    have hl2 := List.sorted_cons.mp hl
    by_cases h1 : w < a
    · simp only [h1, if_true]
      apply List.sorted_cons.mpr
      refine ⟨fun b hb => ?_, hl⟩
      rcases List.mem_cons.mp hb with h | h
      · rw [h]; exact h1
      · exact Nat.lt_trans h1 (hl2.1 b h)
    · by_cases h2 : w = a
      · subst h2
        simp only [Nat.lt_irrefl, if_false, if_true]
        exact hl
      · simp only [h1, h2, if_false]
        apply List.sorted_cons.mpr
        refine ⟨fun b hb => ?_, ih hl2.2⟩
        rcases (mem_setInsert w b t).mp hb with h | h
        · rw [h]
          exact Nat.lt_of_le_of_ne (Nat.le_of_not_lt h1) (fun e => h2 e.symm)
        · exact hl2.1 b h

theorem wordLoop_spec (ws : Words) (acc : Words) (hacc : acc.Sorted (· < ·)) :
    (ws.foldl (fun a srcWord => setInsert srcWord a) acc).Sorted (· < ·)
    ∧ ∀ x, x ∈ ws.foldl (fun a srcWord => setInsert srcWord a) acc ↔ x ∈ acc ∨ x ∈ ws := by
  induction ws generalizing acc with
  | nil => simp [hacc]
  | cons w t ih =>
    simp only [List.foldl_cons]
    obtain ⟨h1, h2⟩ := ih (setInsert w acc) (sorted_setInsert w acc hacc)
    refine ⟨h1, fun x => ?_⟩
    rw [h2 x, mem_setInsert, List.mem_cons]
    constructor
    · rintro ((h | h) | h)
      · exact Or.inr (Or.inl h)
      · exact Or.inl h
      · exact Or.inr (Or.inr h)
    · rintro (h | h | h)
      · exact Or.inl (Or.inr h)
      · exact Or.inl (Or.inl h)
      · exact Or.inr h

theorem sentenceLoop_spec (ss : List Sentence) (acc : Words) (hacc : acc.Sorted (· < ·)) :
    (ss.foldl (fun srcWords sentence =>
        sentence.GetWords.foldl (fun a srcWord => setInsert srcWord a) srcWords) acc).Sorted
      (· < ·)
    ∧ ∀ x, x ∈ ss.foldl (fun srcWords sentence =>
        sentence.GetWords.foldl (fun a srcWord => setInsert srcWord a) srcWords) acc
      ↔ x ∈ acc ∨ ∃ s ∈ ss, x ∈ s.GetWords := by
  induction ss generalizing acc with
  | nil => simp [hacc]
  | cons s t ih =>
    simp only [List.foldl_cons]
    obtain ⟨w1, w2⟩ := wordLoop_spec s.GetWords acc hacc
    obtain ⟨h1, h2⟩ := ih _ w1
    refine ⟨h1, fun x => ?_⟩
    rw [h2 x, w2 x]
    constructor
    · rintro ((h | h) | ⟨s', hs', h⟩)
      · exact Or.inl h
      · exact Or.inr ⟨s, List.mem_cons_self _ _, h⟩
      · exact Or.inr ⟨s', List.mem_cons_of_mem _ hs', h⟩
    · rintro (h | ⟨s', hs', h⟩)
      · exact Or.inl (Or.inl h)
      · rcases List.mem_cons.mp hs' with e | e
        · rw [e] at h
          exact Or.inl (Or.inr h)
        · exact Or.inr ⟨s', e, h⟩

theorem collectSrcWords_spec (sentences : Sentences) :
    (collectSrcWords sentences).Sorted (· < ·)
    ∧ ∀ x, x ∈ collectSrcWords sentences ↔ ∃ s ∈ sentences.coll, x ∈ s.GetWords := by
  obtain ⟨h1, h2⟩ := sentenceLoop_spec sentences.coll [] List.sorted_nil
  refine ⟨h1, fun x => ?_⟩
  unfold collectSrcWords
  rw [h2 x]
  simp

theorem not_isFiltering_of_mem_steps (srch : Search) (l : List StepRecord) (c : Call)
    (hc : c ∈ l.flatMap srch.stepCalls) : c.isFiltering = false := by
  obtain ⟨s, _, hs⟩ := List.mem_flatMap.mp hc
  rcases mem_stepCalls srch s c hs with ⟨i, _, rfl⟩ | rfl | rfl | ⟨_, rfl⟩ <;> rfl

theorem not_isFiltering_of_mem_prelude (srch : Search) (C : Collaborators)
    (sentences : Sentences) (hf : srch.filter_ = false) (c : Call)
    (hc : c ∈ srch.preludeCalls C sentences) : c.isFiltering = false := by
  rcases mem_preludeCalls srch C sentences c hc with
    ⟨h, _⟩ | ⟨i, rfl⟩ | ⟨i, rfl⟩ | ⟨i, b, rfl⟩ | ⟨b, rfl⟩ | rfl
  · rw [hf] at h
    exact absurd h (by decide)
  all_goals rfl

theorem Translate_calls_filtered (srch : Search) (C : Collaborators) (sentences : Sentences)
    (hf : srch.filter_ = true) :
    (srch.Translate C sentences).2.calls
      = ([Call.GetVocabSize 0,
            Call.GetFilteredVocab (collectSrcWords sentences) C.GetVocabSize]
          ++ (List.range srch.numScorers).map (fun i => Call.Filter i
              (C.GetFilteredVocab (collectSrcWords sentences) C.GetVocabSize)))
        ++ (Search.preludeCalls { srch with filter_ := false } C sentences
          ++ (srch.Translate C sentences).2.steps.flatMap
              (srch.Translate C sentences).1.stepCalls
          ++ srch.CleanAfterTranslation) := by
  rw [(Translate_eq srch C sentences).2]
  simp [Search.preludeCalls, Search.FilterTargetVocab, Search.Encode, Search.NewStates, hf]

/-- C5: when a filter is configured, the first calls of `Search::Translate` are
`GetVocabSize` on scorer 0, then `GetFilteredVocab` with the set `srcWords`, which holds a
word id exactly when that id occurs in some sentence of the batch and holds it once, then
`Scorer::Filter` with the returned shortlist on scorer 0, 1, ..., in ensemble order;
`filterIndices_` is that shortlist and no later call filters. When no filter is
configured, the run contains no `GetFilteredVocab` and no `Scorer::Filter` call and
`filterIndices_` is unchanged. -/
theorem Translate_filtering (srch : Search) (C : Collaborators) (sentences : Sentences) :
    (srch.filter_ = true →
      (srch.Translate C sentences).2.calls.take (2 + srch.numScorers)
          = [Call.GetVocabSize 0,
              Call.GetFilteredVocab (collectSrcWords sentences) C.GetVocabSize]
            ++ (List.range srch.numScorers).map (fun i => Call.Filter i
                (C.GetFilteredVocab (collectSrcWords sentences) C.GetVocabSize))
      ∧ (∀ c ∈ (srch.Translate C sentences).2.calls.drop (2 + srch.numScorers),
          c.isFiltering = false)
      ∧ (srch.Translate C sentences).1.filterIndices_
          = C.GetFilteredVocab (collectSrcWords sentences) C.GetVocabSize)
    ∧ (∀ w, w ∈ collectSrcWords sentences ↔ ∃ s ∈ sentences.coll, w ∈ s.GetWords)
    ∧ (collectSrcWords sentences).Nodup
    ∧ (srch.filter_ = false →
        (∀ c ∈ (srch.Translate C sentences).2.calls, c.isFiltering = false)
        ∧ (srch.Translate C sentences).1.filterIndices_ = srch.filterIndices_) := by
  obtain ⟨hsorted, hmem⟩ := collectSrcWords_spec sentences
  refine ⟨fun hf => ?_, hmem, hsorted.nodup, fun hf => ?_⟩
  · have hlen : ([Call.GetVocabSize 0,
            Call.GetFilteredVocab (collectSrcWords sentences) C.GetVocabSize]
          ++ (List.range srch.numScorers).map (fun i => Call.Filter i
              (C.GetFilteredVocab (collectSrcWords sentences) C.GetVocabSize))).length
        = 2 + srch.numScorers := by
      simp only [List.length_append, List.length_cons, List.length_nil, List.length_map,
        List.length_range]
    rw [Translate_calls_filtered srch C sentences hf]
    refine ⟨List.take_left' hlen, ?_, ?_⟩
    · rw [List.drop_left' hlen]
      intro c hc
      rcases List.mem_append.mp hc with h | h
      · rcases List.mem_append.mp h with h | h
        · exact not_isFiltering_of_mem_prelude _ C sentences rfl c h
        · exact not_isFiltering_of_mem_steps _ _ c h
      · obtain ⟨j, _, rfl⟩ := mem_cleanupCalls srch c h
        rfl
    · rw [Translate_fst, hf]
      rfl
  · constructor
    · intro c hc
      rw [(Translate_eq srch C sentences).2] at hc
      rcases List.mem_append.mp hc with h | h
      · rcases List.mem_append.mp h with h | h
        · exact not_isFiltering_of_mem_prelude srch C sentences hf c h
        · exact not_isFiltering_of_mem_steps _ _ c h
      · obtain ⟨j, _, rfl⟩ := mem_cleanupCalls srch c h
        rfl
    · rw [Translate_fst, hf]
      rfl

/-- Witness for C5: two sentences `[3, 1]` and `[2]` with a configured filter give the
source word set `{1, 2, 3}`, passed once and propagated to both scorers; without a filter
`filterIndices_` keeps its value. -/
theorem Translate_filtering_witness :
    (Search.mk 2 true 2 false [9]).filter_ = true
    ∧ ((Search.mk 2 true 2 false [9]).Translate mixedEOS twoSentences).2.calls.take (2 + 2)
        = [Call.GetVocabSize 0, Call.GetFilteredVocab [1, 2, 3] 8,
            Call.Filter 0 [1, 2, 3], Call.Filter 1 [1, 2, 3]]
    ∧ ((Search.mk 2 true 2 false [9]).Translate mixedEOS twoSentences).1.filterIndices_
        = mixedEOS.GetFilteredVocab (collectSrcWords twoSentences) mixedEOS.GetVocabSize
    ∧ (Search.mk 2 false 2 false [9]).filter_ = false
    ∧ ((Search.mk 2 false 2 false [9]).Translate mixedEOS twoSentences).1.filterIndices_
        = [9] :=
  ⟨by decide, by decide,
    ((Translate_filtering (Search.mk 2 true 2 false [9]) mixedEOS twoSentences).1
      (by decide)).2.2,
    by decide,
    ((Translate_filtering (Search.mk 2 false 2 false [9]) mixedEOS twoSentences).2.2.2
      (by decide)).2⟩

end amunmt
